import Mathlib
/-!
Verification of the workflow-generator core of the stable-matching repository:
archetype topology builders (Montage, CyberShake, LIGO, Epigenomics), the
resource-model (bandwidth matrix) builders, and the structural validator
(`simple_dag_check.py`), embedded shallowly as executable Lean definitions.
-/
/-! Random draws are modelled by an explicit stream `u : Nat → ℚ` of unit
draws (the successive outputs of the module-level `random` source, scaled
to `[0,1]`); `random.uniform(a, b)` at draw counter `c` is
`a + (b - a) * u c`. A stream is valid when every draw lies in `[0,1]`. -/

/-- A workflow task as built by the generators: numeric id (assigned from a
counter that starts at 1), stage label, and list of predecessor task ids. -/
structure GenTask where
  id : Nat
  taskType : String
  deps : List Nat
deriving Repr, DecidableEq

/-- A task list has contiguous ids `[base..base+len-1]` in order, and every
dependency id is strictly below the task's own id. -/
def idsContigDepsBelow (ts : List GenTask) (base len : Nat) : Prop :=
  ts.map GenTask.id = List.range' base len ∧
    ∀ t ∈ ts, ∀ d ∈ t.deps, d < t.id

namespace Montage

/-- `create_montage_workflow` (creareMontage.py): the five per-image stage
tasks created for one image, starting at counter value `tid`.
mProject, then mDiffFit (dep mProject), mConcatFit (dep mDiffFit),
mBgModel (dep mConcatFit), mBackground (dep mBgModel). -/
def imageChain (tid : Nat) : List GenTask :=
  [{ id := tid,     taskType := "mProject",    deps := [] },
   { id := tid + 1, taskType := "mDiffFit",    deps := [tid] },
   { id := tid + 2, taskType := "mConcatFit",  deps := [tid + 1] },
   { id := tid + 3, taskType := "mBgModel",    deps := [tid + 2] },
   { id := tid + 4, taskType := "mBackground", deps := [tid + 3] }]

/-- The per-image loop of `create_montage_workflow`: builds the chains for
`n` images threading the task-id counter; also returns the collected
`mbackground_tasks` ids and the final counter value. -/
def imageLoop : Nat → Nat → List GenTask × List Nat × Nat
  | 0, tid => ([], [], tid)
  | n + 1, tid =>
    let rest := imageLoop n (tid + 5)
    (imageChain tid ++ rest.1, (tid + 4) :: rest.2.1, rest.2.2)

/-- `create_montage_workflow num_images`: per-image chains, then the final
`mAdd` (depending on every mBackground) and `mJPEG` (depending on mAdd). -/
def create_montage_workflow (num_images : Nat) : List GenTask :=
  let b := imageLoop num_images 1
  b.1 ++ [{ id := b.2.2, taskType := "mAdd", deps := b.2.1 },
          { id := b.2.2 + 1, taskType := "mJPEG", deps := [b.2.2] }]

end Montage

namespace CyberShake

/-- `create_cybershake_workflow` (creareDAG.py): the per-site block of tasks
starting at counter `tid`: one GenCVM (dep PreCVM = task 1), `v` GenSGT
(dep the site's GenCVM), `p` PSA (each depending on all the site's GenSGT),
one ZipPSA (depending on all the site's PSA). -/
def siteBlock (v p tid : Nat) : List GenTask :=
  { id := tid, taskType := "GenCVM", deps := [1] } ::
  (((List.range v).map fun i => { id := tid + 1 + i, taskType := "GenSGT", deps := [tid] }) ++
   ((List.range p).map fun j =>
     { id := tid + 1 + v + j, taskType := "PSA",
       deps := (List.range v).map fun i => tid + 1 + i }) ++
   [{ id := tid + 1 + v + p, taskType := "ZipPSA",
      deps := (List.range p).map fun j => tid + 1 + v + j }])

/-- The per-site loop, threading the task-id counter over `n` sites. -/
def siteLoop (v p : Nat) : Nat → Nat → List GenTask × Nat
  | 0, tid => ([], tid)
  | n + 1, tid =>
    let rest := siteLoop v p n (tid + (2 + v + p))
    (siteBlock v p tid ++ rest.1, rest.2)

/-- `create_cybershake_workflow num_sites num_sgt_variations num_psa_filter`:
the root PreCVM (id 1), the per-site blocks, and a final PostProcess whose
dependencies are the ids of all ZipPSA tasks (collected by filtering the
task list on type, as the source does). -/
def create_cybershake_workflow (s v p : Nat) : List GenTask :=
  let pre : GenTask := { id := 1, taskType := "PreCVM", deps := [] }
  let b := siteLoop v p s 2
  let allSoFar := pre :: b.1
  let zipIds := (allSoFar.filter fun t => t.taskType == "ZipPSA").map GenTask.id
  allSoFar ++ [{ id := b.2, taskType := "PostProcess", deps := zipIds }]

end CyberShake

namespace Ligo

/-- `create_ligo_workflow` (creareLIGO.py). Parameters: `s` = num_segments,
`T` = inspiral_templates (segment_duration does not affect the structure).
The task-id counter starts at 1 and increments once per created task, so
each stage occupies a contiguous id block, reproduced here in closed form. -/
def datafindTasks (s : Nat) : List GenTask :=
  (List.range s).map fun seg => { id := 1 + seg, taskType := "DataFind", deps := [] }

/-- `datafind_tasks` in the source: the collected DataFind task ids. -/
def datafindIds (s : Nat) : List Nat := (datafindTasks s).map GenTask.id

/-- `templatebank_id`: the TemplateBank task is created right after the
`s` DataFind tasks. -/
def templatebankId (s : Nat) : Nat := s + 1

/-- `inspiral_tasks[seg]`: the ids of the `T` Inspiral tasks of segment
`seg` (created after DataFind and TemplateBank, seg-major order). -/
def inspiralIds (s T seg : Nat) : List Nat :=
  (List.range T).map fun tpl => s + 2 + seg * T + tpl

/-- The Inspiral tasks: one per (segment, template) pair, each depending on
`datafind_tasks[seg]` and `templatebank_id`. -/
def inspiralTasks (s T : Nat) : List GenTask :=
  (List.range s).flatMap fun seg =>
    (List.range T).map fun tpl =>
      { id := s + 2 + seg * T + tpl, taskType := "Inspiral",
        deps := [(datafindIds s).getD seg 0, templatebankId s] }

/-- Number of iterations of `range(0, num_segments, 4)` = `⌈s/4⌉`. -/
def numGroups (s : Nat) : Nat := (s + 3) / 4

/-- `group_segments` for group index `g` (source group start `4*g`):
`list(range(group, min(group + 4, num_segments)))`. -/
def groupSegments (s g : Nat) : List Nat :=
  List.range' (4 * g) (min (4 * g + 4) s - 4 * g)

/-- First Coincidence task id: after DataFind, TemplateBank, Inspiral. -/
def coincBase (s T : Nat) : Nat := s + 2 + s * T

/-- The Coincidence tasks: one per group of (up to) 4 segments, depending
on all Inspiral tasks of the group's segments. -/
def coincidenceTasks (s T : Nat) : List GenTask :=
  (List.range (numGroups s)).map fun g =>
    { id := coincBase s T + g, taskType := "Coincidence",
      deps := (groupSegments s g).flatMap fun seg => inspiralIds s T seg }

/-- `trigbank_id`: created right after the Coincidence tasks. -/
def trigbankId (s T : Nat) : Nat := coincBase s T + numGroups s

/-- `coincidence_tasks`: the collected Coincidence task ids. -/
def coincidenceIds (s T : Nat) : List Nat := (coincidenceTasks s T).map GenTask.id

/-- `injection_jobs = max(1, num_segments // 10)`. -/
def injectionJobs (s : Nat) : Nat := max 1 (s / 10)

/-- The Injection tasks, each depending only on TemplateBank. -/
def injectionTasks (s T : Nat) : List GenTask :=
  (List.range (injectionJobs s)).map fun i =>
    { id := trigbankId s T + 1 + i, taskType := "Injection",
      deps := [templatebankId s] }

/-- `injection_tasks`: the collected Injection task ids. -/
def injectionIds (s T : Nat) : List Nat := (injectionTasks s T).map GenTask.id

/-- `thinca` task id: after TrigBank and the Injection tasks. -/
def thincaId (s T : Nat) : Nat := trigbankId s T + 1 + injectionJobs s

/-- `create_ligo_workflow num_segments inspiral_templates`: DataFind per
segment, one TemplateBank, Inspiral per (segment, template), Coincidence
per 4-segment group, one TrigBank, the Injection batch, one Thinca, one
PostProcess. -/
def create_ligo_workflow (s T : Nat) : List GenTask :=
  datafindTasks s ++
  [{ id := templatebankId s, taskType := "TemplateBank", deps := [] }] ++
  inspiralTasks s T ++
  coincidenceTasks s T ++
  [{ id := trigbankId s T, taskType := "TrigBank", deps := coincidenceIds s T }] ++
  injectionTasks s T ++
  [{ id := thincaId s T, taskType := "Thinca",
     deps := trigbankId s T :: injectionIds s T },
   { id := thincaId s T + 1, taskType := "PostProcess", deps := [thincaId s T] }]

/-- Total number of tasks created by the LIGO builder. -/
def ligoN (s T : Nat) : Nat := s + 1 + s * T + numGroups s + 1 + injectionJobs s + 2

end Ligo

namespace Epigenomics

/-- `create_epigenomics_workflow` (creareEpigenomics.py). Parameters:
`n` = num_samples, `a` = analysis_types (num_chromosomes does not affect
the structure). The task-id counter starts at 1; stage blocks are
contiguous, reproduced in closed form. -/
def fastqcTasks (n : Nat) : List GenTask :=
  (List.range n).flatMap fun samp =>
    [{ id := 2 * samp + 1, taskType := "FastQC", deps := [] },
     { id := 2 * samp + 2, taskType := "FastQC", deps := [] }]

/-- `fastqc_tasks`: the collected FastQC ids (R1 then R2 per sample). -/
def fastqcIds (n : Nat) : List Nat := (fastqcTasks n).map GenTask.id

/-- Trimming: one per sample, depending on the sample's two FastQC tasks
(`fastqc_tasks[2*samp]`, `fastqc_tasks[2*samp+1]`). -/
def trimmingTasks (n : Nat) : List GenTask :=
  (List.range n).map fun samp =>
    { id := 2 * n + 1 + samp, taskType := "Trimming",
      deps := [(fastqcIds n).getD (2 * samp) 0, (fastqcIds n).getD (2 * samp + 1) 0] }

def trimmingIds (n : Nat) : List Nat := (trimmingTasks n).map GenTask.id

def alignmentTasks (n : Nat) : List GenTask :=
  (List.range n).map fun samp =>
    { id := 3 * n + 1 + samp, taskType := "Alignment",
      deps := [(trimmingIds n).getD samp 0] }

def alignmentIds (n : Nat) : List Nat := (alignmentTasks n).map GenTask.id

def sortingTasks (n : Nat) : List GenTask :=
  (List.range n).map fun samp =>
    { id := 4 * n + 1 + samp, taskType := "Sorting",
      deps := [(alignmentIds n).getD samp 0] }

def sortingIds (n : Nat) : List Nat := (sortingTasks n).map GenTask.id

def dedupTasks (n : Nat) : List GenTask :=
  (List.range n).map fun samp =>
    { id := 5 * n + 1 + samp, taskType := "Deduplication",
      deps := [(sortingIds n).getD samp 0] }

def dedupIds (n : Nat) : List Nat := (dedupTasks n).map GenTask.id

/-- PeakCalling: `a` tasks per sample, each depending on the sample's
Deduplication task. -/
def peakTasks (n a : Nat) : List GenTask :=
  (List.range n).flatMap fun samp =>
    (List.range a).map fun an =>
      { id := 6 * n + 1 + samp * a + an, taskType := "PeakCalling",
        deps := [(dedupIds n).getD samp 0] }

/-- `peakcalling_tasks[samp]`: the sample's collected PeakCalling ids. -/
def peakIdLists (n a : Nat) : List (List Nat) :=
  (List.range n).map fun samp => (List.range a).map fun an => 6 * n + 1 + samp * a + an

def annotationTasks (n a : Nat) : List GenTask :=
  (List.range n).map fun samp =>
    { id := 6 * n + n * a + 1 + samp, taskType := "Annotation",
      deps := (peakIdLists n a).getD samp [] }

def annotationIds (n a : Nat) : List Nat := (annotationTasks n a).map GenTask.id

/-- `differential_jobs = max(1, num_samples // 2)`. -/
def diffJobs (n : Nat) : Nat := max 1 (n / 2)

/-- DifferentialAnalysis: for group `d`, `compare_samples =
range(2d, min(2d+2, n))`, depending on those samples' Annotation tasks
(guarded, as in the source, on the sample index being in bounds). -/
def differentialTasks (n a : Nat) : List GenTask :=
  (List.range (diffJobs n)).map fun d =>
    { id := 7 * n + n * a + 1 + d, taskType := "DifferentialAnalysis",
      deps := ((List.range' (2 * d) (min (2 * d + 2) n - 2 * d)).filter
        (fun smp => smp < n)).map fun smp => (annotationIds n a).getD smp 0 }

def differentialIds (n a : Nat) : List Nat := (differentialTasks n a).map GenTask.id

/-- Visualization: one per sample (dep the sample's Annotation), then one
per differential group (dep that group's DifferentialAnalysis). -/
def visualizationTasks (n a : Nat) : List GenTask :=
  ((List.range n).map fun samp =>
    { id := 7 * n + n * a + diffJobs n + 1 + samp, taskType := "Visualization",
      deps := [(annotationIds n a).getD samp 0] }) ++
  ((List.range (diffJobs n)).map fun d =>
    { id := 8 * n + n * a + diffJobs n + 1 + d, taskType := "Visualization",
      deps := [(differentialIds n a).getD d 0] })

def visualizationIds (n a : Nat) : List Nat := (visualizationTasks n a).map GenTask.id

/-- Total number of tasks created by the Epigenomics builder. -/
def epigN (n a : Nat) : Nat := 8 * n + n * a + 2 * diffJobs n + 1

/-- `create_epigenomics_workflow num_samples analysis_types`. -/
def create_epigenomics_workflow (n a : Nat) : List GenTask :=
  fastqcTasks n ++ trimmingTasks n ++ alignmentTasks n ++ sortingTasks n ++
  dedupTasks n ++ peakTasks n a ++ annotationTasks n a ++ differentialTasks n a ++
  visualizationTasks n a ++
  [{ id := epigN n a, taskType := "FinalReport",
     deps := differentialIds n a ++ visualizationIds n a }]

end Epigenomics

namespace Validator

/-- A loaded DAG as `load_dag_from_files` produces it (simple_dag_check.py):
the task ids from task.csv and the directed dependency edges from dag.csv. -/
structure Graph where
  tasks : List Nat
  edges : List (Nat × Nat)
deriving Repr, DecidableEq

/-- `adj_list[t]`: successors of `t`, in edge-file order. -/
def adjList (g : Graph) (t : Nat) : List Nat :=
  (g.edges.filter fun e => e.1 == t).map Prod.snd

/-- `in_degree[t]`: number of edges into `t`. -/
def inDeg (g : Graph) (t : Nat) : Nat :=
  (g.edges.filter fun e => e.2 == t).length

/-- The predecessor list of `t` (sources of the edges into `t`). -/
def predsOf (g : Graph) (t : Nat) : List Nat :=
  (g.edges.filter fun e => e.2 == t).map Prod.fst

/-- `roots`: tasks with in-degree 0. -/
def rootsOf (g : Graph) : List Nat := g.tasks.filter fun t => inDeg g t == 0

/-- `leaves`: tasks with no outgoing edge. -/
def leavesOf (g : Graph) : List Nat := g.tasks.filter fun t => (adjList g t).length == 0

/-- `depths[t]` lookup in the association-list model of the Python dict. -/
def dmLookup : List (Nat × Nat) → Nat → Option Nat
  | [], _ => none
  | (k, v) :: rest, t => if k = t then some v else dmLookup rest t

/-- `depths[task] = max(depths[task], depth)` when present, else
`depths[task] = depth` — the body of the level BFS update. -/
def dmUpdate : List (Nat × Nat) → Nat → Nat → List (Nat × Nat)
  | [], t, d => [(t, d)]
  | (k, v) :: rest, t, d =>
    if k = t then (k, max v d) :: rest else (k, v) :: dmUpdate rest t d

/-- The level/depth BFS of `analyze_dag_structure`: FIFO queue of
`(task, depth)` pairs, no visited set, max-merge into `depths`.
Fuel-indexed; `none` means the fuel ran out before the queue drained. -/
def levelBfs (g : Graph) : Nat → List (Nat × Nat) → List (Nat × Nat) →
    Option (List (Nat × Nat))
  | _, [], m => some m
  | 0, _ :: _, _ => none
  | fuel + 1, (t, d) :: q, m =>
    levelBfs g fuel (q ++ (adjList g t).map fun n => (n, d + 1)) (dmUpdate m t d)

/-- The `depths` map computed by `analyze_dag_structure`: BFS from all
roots at depth 0. -/
def computeLevels (g : Graph) (fuel : Nat) : Option (List (Nat × Nat)) :=
  levelBfs g fuel ((rootsOf g).map fun r => (r, 0)) []

/-- The per-root BFS of the critical-path computation: `(task, path_len)`
queue, per-root visited set, `max_path` accumulator updated at leaves. -/
def cpBfs (g : Graph) : Nat → List (Nat × Nat) → List Nat → Nat → Option Nat
  | _, [], _, mp => some mp
  | 0, _ :: _, _, _ => none
  | fuel + 1, (t, l) :: q, vis, mp =>
    if t ∈ vis then cpBfs g fuel q vis mp
    else
      cpBfs g fuel
        (q ++ ((adjList g t).filter fun n => n ∉ (t :: vis)).map fun n => (n, l + 1))
        (t :: vis) (if t ∈ leavesOf g then max mp l else mp)

/-- `critical_path_length`: 0 unless there are both roots and leaves, else
the max over all roots of the per-root BFS (each root starts at
`path_len = 1` with a fresh visited set; `max_path` carried across roots). -/
def criticalPathLength (g : Graph) (fuel : Nat) : Option Nat :=
  if (rootsOf g).isEmpty || (leavesOf g).isEmpty then some 0
  else (rootsOf g).foldlM (fun mp root => cpBfs g fuel [(root, 1)] [] mp) 0

/-- Path generation relation of the level BFS: `Ext g (t, e) (v, d)` holds
when starting from queue entry `(t, e)` the BFS (which re-enqueues every
successor with depth+1 and never prunes) eventually generates entry
`(v, d)`; equivalently there is a directed path `t →* v` of length
`d - e`. -/
inductive Ext (g : Graph) : Nat × Nat → Nat × Nat → Prop where
  | refl (p : Nat × Nat) : Ext g p p
  | step {t e : Nat} {n : Nat} {q : Nat × Nat} :
      n ∈ adjList g t → Ext g (n, e + 1) q → Ext g (t, e) q

/-- The unbranched chain `t1 → t2 → ... → tn`: tasks `1..n`, edges
`(i, i+1)` for `i ∈ [1..n-1]` and no others. -/
def chainGraph (n : Nat) : Graph :=
  { tasks := List.range' 1 n,
    edges := (List.range' 1 (n - 1)).map fun i => (i, i + 1) }

end Validator

def validStream (u : Nat → ℚ) : Prop := ∀ i, 0 ≤ u i ∧ u i ≤ 1

/-- `random.uniform(lo, hi)` at draw `x`. -/
def uniformDraw (lo hi : ℚ) (x : ℚ) : ℚ := lo + (hi - lo) * x

namespace Matrixes

variable {α : Type} [Inhabited α]

/-- One row of the bandwidth matrix: walk the VM list with column index
`j` and draw counter `c`; diagonal cells emit `0.0` without drawing,
off-diagonal cells consume one draw. Returns the row and the counter. -/
def mkRow (band : α → α → ℚ → ℚ) (u : Nat → ℚ) (ti : α) (i : Nat) :
    List α → Nat → Nat → (List ℚ × Nat)
  | [], _, c => ([], c)
  | tj :: rest, j, c =>
    if i = j then
      let r := mkRow band u ti i rest (j + 1) c
      (0 :: r.1, r.2)
    else
      let r := mkRow band u ti i rest (j + 1) (c + 1)
      (band ti tj (u c) :: r.1, r.2)

/-- All rows, threading the draw counter row to row. -/
def mkRows (band : α → α → ℚ → ℚ) (u : Nat → ℚ) (vms : List α) :
    List α → Nat → Nat → List (List ℚ)
  | [], _, _ => []
  | ti :: rest, i, c =>
    let r := mkRow band u ti i vms 0 c
    r.1 :: mkRows band u vms rest (i + 1) r.2

/-- The N×N bandwidth matrix written to vm.csv. -/
def mkMatrix (band : α → α → ℚ → ℚ) (u : Nat → ℚ) (vms : List α) : List (List ℚ) :=
  mkRows band u vms vms 0 0

end Matrixes

/-- Does the character list start with `sub`? -/
def charsStartWith : List Char → List Char → Bool
  | [], _ => true
  | _ :: _, [] => false
  | a :: as, b :: bs => a == b && charsStartWith as bs

/-- Does the character list contain `sub` as a contiguous run? -/
def charsHas (sub : List Char) : List Char → Bool
  | [] => charsStartWith sub []
  | c :: rest => charsStartWith sub (c :: rest) || charsHas sub rest

/-- Python's `sub in s` substring test, on the underlying character lists. -/
def pyIn (sub s : String) : Bool := charsHas sub.data s.data

namespace Ligo

/-- Tier-aware bandwidth draw of creareLIGO.py `create_vm_preferences_file`:
GPU-GPU 800-1200, GPU-CPU 400-800, ultra-ultra 600-1000, else 200-600. -/
def ligoBand (t1 t2 : String) (x : ℚ) : ℚ :=
  if pyIn "gpu" t1 && pyIn "gpu" t2 then uniformDraw 800 1200 x
  else if pyIn "gpu" t1 || pyIn "gpu" t2 then uniformDraw 400 800 x
  else if pyIn "ultra" t1 && pyIn "ultra" t2 then uniformDraw 600 1000 x
  else uniformDraw 200 600 x

/-- The 35 VM instances hard-coded in `create_ligo_workflow` (`vm_configs`
expanded by per-type count, in order). -/
def ligoVmTypes : List String :=
  List.replicate 4 "cpu_intensive" ++ List.replicate 6 "cpu_medium" ++
  List.replicate 8 "cpu_high" ++ List.replicate 12 "cpu_ultra" ++
  List.replicate 3 "gpu_standard" ++ List.replicate 2 "gpu_high"

/-- The bandwidth matrix written to vm.csv by the LIGO resource builder,
for a VM pool `vms` and draw stream `u`. -/
def ligoVmMatrix (vms : List String) (u : Nat → ℚ) : List (List ℚ) :=
  Matrixes.mkMatrix ligoBand u vms

end Ligo

namespace Epigenomics

/-- Tier-aware bandwidth draw of creareEpigenomics.py
`create_vm_preferences_file`: mem-mem 700-1100, mem-CPU 400-700,
ultra-ultra 500-900, else 200-500. -/
def epigBand (t1 t2 : String) (x : ℚ) : ℚ :=
  if pyIn "mem" t1 && pyIn "mem" t2 then uniformDraw 700 1100 x
  else if pyIn "mem" t1 || pyIn "mem" t2 then uniformDraw 400 700 x
  else if pyIn "ultra" t1 && pyIn "ultra" t2 then uniformDraw 500 900 x
  else uniformDraw 200 500 x

/-- The 38 VM instances hard-coded in `create_epigenomics_workflow`. -/
def epigVmTypes : List String :=
  List.replicate 6 "bio_standard" ++ List.replicate 8 "bio_medium" ++
  List.replicate 10 "bio_high" ++ List.replicate 8 "bio_ultra" ++
  List.replicate 4 "mem_intensive" ++ List.replicate 2 "mem_ultra"

/-- The bandwidth matrix written to vm.csv by the Epigenomics resource
builder. -/
def epigVmMatrix (vms : List String) (u : Nat → ℚ) : List (List ℚ) :=
  Matrixes.mkMatrix epigBand u vms

end Epigenomics

namespace CyberShake

/-- Bandwidth draw of creareDAG.py `create_vm_preferences_file`:
`max(10.0, min(cpu1, cpu2) * 50 + uniform(-10, 10))`. -/
def dagBand (c1 c2 : Nat) (x : ℚ) : ℚ :=
  max 10 (((min c1 c2 : Nat) : ℚ) * 50 + uniformDraw (-10) 10 x)

/-- `vm_distribution` of creareDAG.py: per-type instance counts from the
total job count (floored at 1), expanded to the per-VM cpu list in order
small (1 cpu), medium (2), large (4), xlarge (8). -/
def dagVmCpus (total_jobs : Nat) : List Nat :=
  List.replicate (max 1 (total_jobs / 20)) 1 ++ List.replicate (max 1 (total_jobs / 15)) 2 ++
  List.replicate (max 1 (total_jobs / 10)) 4 ++ List.replicate (max 1 (total_jobs / 8)) 8

/-- The bandwidth matrix written to vm.csv by the CyberShake resource
builder. -/
def dagVmMatrix (total_jobs : Nat) (u : Nat → ℚ) : List (List ℚ) :=
  Matrixes.mkMatrix dagBand u (dagVmCpus total_jobs)

end CyberShake

namespace Pegasus

/-- A bandwidth value of `workflow_to_csv` (pegasus_workflow_generator.py):
a finite draw, or `float('inf')` for the same-VM entry. -/
inductive Bw where
  | fin (q : ℚ)
  | inf
deriving Repr, DecidableEq

/-- The inner `for j in range(num_vms)` loop of the bandwidth generation:
off-diagonal entries draw `uniform(20.0, 30.0)`, the diagonal entry is
`float('inf')`. -/
def pegRow (u : Nat → ℚ) (i : Nat) : List Nat → Nat → (List (Nat × Nat × Bw) × Nat)
  | [], c => ([], c)
  | j :: js, c =>
    if i ≠ j then
      let r := pegRow u i js (c + 1)
      ((i, j, Bw.fin (uniformDraw 20 30 (u c))) :: r.1, r.2)
    else
      let r := pegRow u i js c
      ((i, j, Bw.inf) :: r.1, r.2)

/-- The outer `for i in range(num_vms)` loop. -/
def pegRows (u : Nat → ℚ) (N : Nat) : List Nat → Nat → List (Nat × Nat × Bw)
  | [], _ => []
  | i :: is, c =>
    let r := pegRow u i (List.range N) c
    r.1 ++ pegRows u N is r.2

/-- The flat `bandwidth` list of dicts built by `workflow_to_csv`. -/
def pegasusBandwidth (N : Nat) (u : Nat → ℚ) : List (Nat × Nat × Bw) :=
  pegRows u N (List.range N) 0

end Pegasus

namespace Montage

/-- `scale_params` of `create_montage_workflow_ccr`:
small (25 images, sizes 500-600), medium (50, 550-650), large (100,
600-700); any other scale raises `ValueError`. -/
def scale_params (scale : String) : Option (Nat × ℚ × ℚ) :=
  if scale = "small" then some (25, 500, 600)
  else if scale = "medium" then some (50, 550, 650)
  else if scale = "large" then some (100, 600, 700)
  else none

/-- The contents of processing_capacity.csv and task.csv written by
`create_montage_workflow_ccr scale num_vms ccr`: the VM capacities are
drawn first (`create_vm_configurations_ccr`, one `uniform(10.0, 20.0)`
per VM), then one task size `uniform(size_min, size_max)` per task in id
order (5 per image, then mAdd, then mJPEG). All draws come from the
module-level `random` source, here the stream `u`; no seed is ever set. -/
def montage_ccr_outputs (scale : String) (num_vms : Nat) (u : Nat → ℚ) :
    Option (List (Nat × ℚ) × List (Nat × ℚ)) :=
  (scale_params scale).map fun p =>
    ((List.range num_vms).map fun i => (i + 1, uniformDraw 10 20 (u i)),
     (List.range (5 * p.1 + 2)).map fun i =>
       (i + 1, uniformDraw p.2.1 p.2.2 (u (num_vms + i))))

/-- The result of `main()` in creareMontage.py on the legacy-mode
arguments: Python's `if args.images:` treats both `None` and `0` as
falsy, so `--images 0` falls through to the default CCR generation
(scale `medium`, 50 images, 252 tasks) instead of being validated. -/
inductive MainResult where
  | invalidImages
  | invalidDegrees
  | legacy (tasks : List GenTask)
  | ccrDefault (numTasks : Nat)
deriving Repr, DecidableEq

/-- `main()` of creareMontage.py (legacy arguments, `--analyze_ccr` off):
validation happens inside `if args.images:` and exits before any
construction; otherwise the builder runs and writes the CSV files. -/
def montageMain (images : Option Int) (degrees : ℚ) : MainResult :=
  if (match images with | none => false | some n => n != 0) then
    let n := (images.getD 0)
    if n < 1 || n > 200 then MainResult.invalidImages
    else if degrees < 1/10 || degrees > 10 then MainResult.invalidDegrees
    else MainResult.legacy (create_montage_workflow n.toNat)
  else
    MainResult.ccrDefault (5 * 50 + 2)

end Montage

namespace Ligo

/-- `main()` of creareLIGO.py: segment and template validation precede the
builder call (which is also what writes the CSV files). -/
def ligoMain (segments templates : Int) : Except String (List GenTask) :=
  if segments < 1 || segments > 1000 then
    Except.error "Il numero di segmenti deve essere tra 1 e 1000"
  else if templates < 1 || templates > 50 then
    Except.error "Il numero di template deve essere tra 1 e 50"
  else Except.ok (create_ligo_workflow segments.toNat templates.toNat)

end Ligo

namespace Synthetic

/-- `SyntheticWorkflowGenerator.generate_cybershake num_tasks`
(synthetic_workflow_generator.py): `rows = num_tasks // 5` pipelines of 5
tasks each (ids from a counter starting at 1); a non-multiple of 5 is
silently rounded down. -/
def generate_cybershake_nodes (num_tasks : Nat) : List Nat :=
  (List.range (num_tasks / 5)).flatMap fun r =>
    [5 * r + 1, 5 * r + 2, 5 * r + 3, 5 * r + 4, 5 * r + 5]

/-- The edges of one synthetic CyberShake pipeline row:
t1→t2, t2→t3, t2→t4, t1→t5. -/
def generate_cybershake_edges (num_tasks : Nat) : List (Nat × Nat) :=
  (List.range (num_tasks / 5)).flatMap fun r =>
    [(5 * r + 1, 5 * r + 2), (5 * r + 2, 5 * r + 3),
     (5 * r + 2, 5 * r + 4), (5 * r + 1, 5 * r + 5)]

end Synthetic

namespace Validator

/-- The diamond of C8: A=1, B=2, C=3, D=4 with A→B, B→D, A→C, C→D. -/
def diamondGraph : Graph :=
  { tasks := [1, 2, 3, 4], edges := [(1, 2), (2, 4), (1, 3), (3, 4)] }

end Validator

@[simp] theorem GenTask.id_mk (a b c) : (GenTask.mk a b c).id = a := rfl

@[simp] theorem GenTask.taskType_mk (a b c) : (GenTask.mk a b c).taskType = b := rfl

@[simp] theorem GenTask.deps_mk (a b c) : (GenTask.mk a b c).deps = c := rfl

/-- Concatenating two consecutive `range'` blocks gives one contiguous block. -/
theorem range'_join (a m n : Nat) :
    List.range' a m ++ List.range' (a + m) n = List.range' a (m + n) := by
  rw [Nat.add_comm m n]
  have h := List.range'_append a m n 1
  simp only [Nat.one_mul] at h
  exact h

/-- `range'_join` with the start of the second block and the joint length
given up to arithmetic, for rewriting against syntactically fixed goals. -/
theorem range'_join' (a m n b k : Nat) (h1 : b = a + m) (h2 : k = m + n) :
    List.range' a m ++ List.range' b n = List.range' a k := by
  subst h1; subst h2; exact range'_join a m n

namespace Montage

theorem imageLoop_counter (n tid : Nat) : (imageLoop n tid).2.2 = tid + 5 * n := by
  induction n generalizing tid with
  | zero => simp [imageLoop]
  | succ k ih => simp [imageLoop, ih]; omega

theorem imageLoop_length (n tid : Nat) : (imageLoop n tid).1.length = 5 * n := by
  induction n generalizing tid with
  | zero => simp [imageLoop]
  | succ k ih => simp [imageLoop, imageChain, ih]; omega

theorem create_montage_workflow_length (k : Nat) :
    (create_montage_workflow k).length = 5 * k + 2 := by
  simp [create_montage_workflow, imageLoop_length]

theorem imageLoop_ids (n tid : Nat) :
    ((imageLoop n tid).1.map GenTask.id) = List.range' tid (5 * n) := by
  induction n generalizing tid with
  | zero => simp [imageLoop]
  | succ k ih =>
    have h5 : 5 * (k + 1) = 5 + 5 * k := by omega
    simp only [imageLoop, List.map_append, ih, h5]
    have : (imageChain tid).map GenTask.id = List.range' tid 5 := by
      simp [imageChain, List.range']
    rw [this, range'_join]

theorem imageLoop_bgs (n tid : Nat) :
    ∀ b ∈ (imageLoop n tid).2.1, b < tid + 5 * n := by
  induction n generalizing tid with
  | zero => simp [imageLoop]
  | succ k ih =>
    intro b hb
    simp only [imageLoop, List.mem_cons] at hb
    rcases hb with h | h
    · omega
    · have := ih (tid + 5) b h; omega

theorem imageLoop_deps (n tid : Nat) :
    ∀ t ∈ (imageLoop n tid).1, ∀ d ∈ t.deps, d < t.id := by
  induction n generalizing tid with
  | zero => simp [imageLoop]
  | succ k ih =>
    intro t ht d hd
    simp only [imageLoop, List.mem_append] at ht
    rcases ht with h | h
    · simp only [imageChain, List.mem_cons, List.not_mem_nil, or_false] at h
      rcases h with h | h | h | h | h <;> subst h <;> simp_all
    · exact ih (tid + 5) t h d hd

/-- Montage invariant: ids are exactly `[1..5k+2]` and every dependency id is
strictly below its task's id. -/
theorem montage_invariant (k : Nat) :
    idsContigDepsBelow (create_montage_workflow k) 1 (5 * k + 2) := by
  constructor
  · simp only [create_montage_workflow, List.map_append, imageLoop_ids, imageLoop_counter,
      List.map_cons, List.map_nil]
    have : ([{ id := 1 + 5 * k, taskType := "mAdd", deps := (imageLoop k 1).2.1 },
             { id := 1 + 5 * k + 1, taskType := "mJPEG", deps := [1 + 5 * k] }] :
             List GenTask).map GenTask.id = List.range' (1 + 5 * k) 2 := by
      simp [List.range']
    rw [show (5 * k + 2) = 5 * k + 2 from rfl, ← range'_join 1 (5 * k) 2]
    simp [List.range']
  · intro t ht d hd
    simp only [create_montage_workflow, List.mem_append, List.mem_cons,
      List.not_mem_nil, or_false] at ht
    rcases ht with h | h | h
    · exact imageLoop_deps k 1 t h d hd
    · subst h
      simp only at hd
      have := imageLoop_bgs k 1 d hd
      simp [imageLoop_counter]
      omega
    · subst h
      simp only [List.mem_singleton] at hd
      subst hd
      simp

end Montage

namespace CyberShake

theorem siteLoop_counter (v p : Nat) (n tid : Nat) :
    (siteLoop v p n tid).2 = tid + (2 + v + p) * n := by
  induction n generalizing tid with
  | zero => simp [siteLoop]
  | succ k ih => simp [siteLoop, ih]; ring

theorem siteBlock_length (v p tid : Nat) : (siteBlock v p tid).length = 2 + v + p := by
  simp [siteBlock]; omega

theorem siteLoop_length (v p : Nat) (n tid : Nat) :
    (siteLoop v p n tid).1.length = (2 + v + p) * n := by
  induction n generalizing tid with
  | zero => simp [siteLoop]
  | succ k ih => simp [siteLoop, siteBlock_length, ih]; ring

theorem create_cybershake_workflow_length (s v p : Nat) :
    (create_cybershake_workflow s v p).length = 1 + s * (1 + v + p) + s + 1 := by
  simp [create_cybershake_workflow, siteLoop_length]
  ring

theorem map_id_over_range (f : Nat → GenTask) (a n : Nat) (h : ∀ i, (f i).id = a + i) :
    ((List.range n).map f).map GenTask.id = List.range' a n := by
  rw [List.range'_eq_map_range, List.map_map]
  exact List.map_congr_left fun i _ => h i

theorem siteBlock_ids (v p tid : Nat) :
    (siteBlock v p tid).map GenTask.id = List.range' tid (2 + v + p) := by
  have h1 := map_id_over_range
    (fun i => { id := tid + 1 + i, taskType := "GenSGT", deps := [tid] }) (tid + 1) v
    (fun i => rfl)
  have h2 := map_id_over_range
    (fun j => { id := tid + 1 + v + j, taskType := "PSA",
                deps := (List.range v).map fun i => tid + 1 + i }) (tid + 1 + v) p
    (fun j => rfl)
  simp only [siteBlock, List.map_cons, List.map_append, h1, h2, List.map_nil]
  rw [show ([tid + 1 + v + p] : List Nat) = List.range' (tid + 1 + v + p) 1 by simp,
    List.append_assoc, range'_join (tid + 1 + v) p 1, range'_join (tid + 1) v (p + 1),
    show 2 + v + p = (v + (p + 1)) + 1 by omega, List.range'_succ]

theorem siteBlock_deps (v p tid : Nat) (htid : 2 ≤ tid) :
    ∀ t ∈ siteBlock v p tid, ∀ d ∈ t.deps, d < t.id := by
  intro t ht d hd
  simp only [siteBlock, List.mem_cons, List.mem_append, List.mem_map,
    List.mem_range, List.mem_singleton, List.not_mem_nil, or_false] at ht
  rcases ht with rfl | (⟨i, hi, rfl⟩ | ⟨j, hj, rfl⟩) | rfl <;>
    simp only [GenTask.deps_mk, GenTask.id_mk, List.mem_singleton, List.mem_map,
      List.mem_range] at hd ⊢
  · omega
  · omega
  · obtain ⟨i, hi, rfl⟩ := hd; omega
  · obtain ⟨j, hj, rfl⟩ := hd; omega

theorem siteLoop_ids (v p : Nat) (n tid : Nat) :
    ((siteLoop v p n tid).1.map GenTask.id) = List.range' tid ((2 + v + p) * n) := by
  induction n generalizing tid with
  | zero => simp [siteLoop]
  | succ k ih =>
    have h : (2 + v + p) * (k + 1) = (2 + v + p) + (2 + v + p) * k := by ring
    simp only [siteLoop, List.map_append, siteBlock_ids, ih, h]
    exact range'_join tid (2 + v + p) ((2 + v + p) * k)

theorem siteLoop_deps (v p : Nat) (n tid : Nat) (htid : 2 ≤ tid) :
    ∀ t ∈ (siteLoop v p n tid).1, ∀ d ∈ t.deps, d < t.id := by
  induction n generalizing tid with
  | zero => simp [siteLoop]
  | succ k ih =>
    intro t ht
    simp only [siteLoop, List.mem_append] at ht
    rcases ht with h | h
    · exact siteBlock_deps v p tid htid t h
    · exact ih (tid + (2 + v + p)) (by omega) t h

/-- CyberShake invariant: ids are exactly `[1..N]` for
`N = 1 + s*(2+v+p) + 1` and every dependency id is strictly below its
task's id. -/
theorem cybershake_invariant (s v p : Nat) :
    idsContigDepsBelow (create_cybershake_workflow s v p) 1 (1 + (2 + v + p) * s + 1) := by
  have hctr := siteLoop_counter v p s 2
  constructor
  · simp only [create_cybershake_workflow, List.map_append, List.map_cons, List.map_nil,
      siteLoop_ids, hctr, GenTask.id_mk]
    symm
    rw [show 1 + (2 + v + p) * s + 1 = ((2 + v + p) * s + 1) + 1 by omega,
      List.range'_concat, List.range'_succ]
    ring_nf
  · intro t ht d hd
    simp only [create_cybershake_workflow, List.mem_append, List.mem_cons,
      List.not_mem_nil, or_false] at ht
    rcases ht with (rfl | h) | rfl
    · simp at hd
    · exact siteLoop_deps v p s 2 (by omega) t h d hd
    · simp only [GenTask.deps_mk, GenTask.id_mk, List.mem_map, List.mem_filter] at hd ⊢
      obtain ⟨u, ⟨hu, _⟩, rfl⟩ := hd
      have hid : u.id ∈ (({ id := 1, taskType := "PreCVM", deps := [] } :: (siteLoop v p s 2).1 :
          List GenTask).map GenTask.id) := List.mem_map_of_mem GenTask.id hu
      simp only [List.map_cons, siteLoop_ids, List.mem_cons, List.mem_range'_1,
        GenTask.id_mk] at hid
      simp only [hctr]
      rcases hid with h1 | ⟨_, h2⟩ <;> omega

end CyberShake

namespace Ligo

theorem flatMap_range'_blocks (b L : Nat) :
    ∀ n, (List.range n).flatMap (fun i => List.range' (b + i * L) L) =
      List.range' b (n * L) := by
  intro n
  induction n with
  | zero => simp
  | succ k ih =>
    rw [List.range_succ, List.flatMap_append, ih, List.flatMap_singleton]
    rw [range'_join b (k * L) L]
    congr 1
    ring

theorem datafindTasks_ids (s : Nat) :
    (datafindTasks s).map GenTask.id = List.range' 1 s :=
  CyberShake.map_id_over_range _ 1 s fun _ => rfl

theorem inspiralTasks_ids (s T : Nat) :
    (inspiralTasks s T).map GenTask.id = List.range' (s + 2) (s * T) := by
  rw [inspiralTasks, List.map_flatMap]
  have h : ∀ seg, (((List.range T).map fun tpl =>
      ({ id := s + 2 + seg * T + tpl, taskType := "Inspiral",
         deps := [(datafindIds s).getD seg 0, templatebankId s] } : GenTask)).map GenTask.id)
      = List.range' ((s + 2) + seg * T) T := by
    intro seg
    exact CyberShake.map_id_over_range _ ((s + 2) + seg * T) T fun _ => rfl
  calc (List.range s).flatMap (fun seg => (((List.range T).map fun tpl =>
          ({ id := s + 2 + seg * T + tpl, taskType := "Inspiral",
             deps := [(datafindIds s).getD seg 0, templatebankId s] } : GenTask)).map GenTask.id))
      = (List.range s).flatMap (fun seg => List.range' ((s + 2) + seg * T) T) := by
        exact List.flatMap_congr fun seg _ => h seg
    _ = List.range' (s + 2) (s * T) := flatMap_range'_blocks (s + 2) T s

theorem coincidenceTasks_ids (s T : Nat) :
    (coincidenceTasks s T).map GenTask.id = List.range' (coincBase s T) (numGroups s) :=
  CyberShake.map_id_over_range _ (coincBase s T) (numGroups s) fun _ => rfl

theorem injectionTasks_ids (s T : Nat) :
    (injectionTasks s T).map GenTask.id = List.range' (trigbankId s T + 1) (injectionJobs s) :=
  CyberShake.map_id_over_range _ (trigbankId s T + 1) (injectionJobs s) fun _ => rfl

/-- LIGO ids are exactly the contiguous range `[1..ligoN s T]`. -/
theorem ligo_ids (s T : Nat) :
    (create_ligo_workflow s T).map GenTask.id = List.range' 1 (ligoN s T) := by
  simp only [create_ligo_workflow, List.map_append, List.map_cons, List.map_nil,
    datafindTasks_ids, inspiralTasks_ids, coincidenceTasks_ids, injectionTasks_ids,
    GenTask.id_mk]
  rw [show ([templatebankId s] : List Nat) = List.range' (1 + s) 1 by
      simp [templatebankId]; omega,
    show ([trigbankId s T] : List Nat) = List.range' (trigbankId s T) 1 by simp,
    show ([thincaId s T, thincaId s T + 1] : List Nat) = List.range' (thincaId s T) 2 by
      simp [List.range'],
    show s + 2 = (1 + s) + 1 by omega,
    show coincBase s T = ((1 + s) + 1) + s * T by simp [coincBase]; omega]
  rw [range'_join 1 s 1,
    range'_join' 1 (s + 1) (s * T) (1 + s + 1) (s + 1 + s * T) (by omega) rfl,
    range'_join' 1 (s + 1 + s * T) (numGroups s) (1 + s + 1 + s * T)
      (s + 1 + s * T + numGroups s) (by omega) rfl,
    range'_join' 1 (s + 1 + s * T + numGroups s) 1 (trigbankId s T)
      (s + 1 + s * T + numGroups s + 1)
      (by simp [trigbankId, coincBase]; omega) rfl,
    range'_join' 1 (s + 1 + s * T + numGroups s + 1) (injectionJobs s) (trigbankId s T + 1)
      (s + 1 + s * T + numGroups s + 1 + injectionJobs s)
      (by simp [trigbankId, coincBase]; omega) rfl,
    range'_join' 1 (s + 1 + s * T + numGroups s + 1 + injectionJobs s) 2 (thincaId s T)
      (ligoN s T)
      (by simp [thincaId, trigbankId, coincBase]; omega)
      (by simp only [ligoN])]

theorem getD_range_map (f : Nat → Nat) (n i d : Nat) (h : i < n) :
    ((List.range n).map f).getD i d = f i := by
  rw [List.getD_eq_getElem?_getD, List.getElem?_map, List.getElem?_range h]
  rfl

theorem datafindIds_getD (s seg : Nat) (h : seg < s) :
    (datafindIds s).getD seg 0 = 1 + seg := by
  have : datafindIds s = (List.range s).map fun seg => 1 + seg := by
    simp [datafindIds, datafindTasks]
  rw [this, getD_range_map _ s seg 0 h]

theorem mul_index_lt {seg s tpl T : Nat} (hs : seg < s) (ht : tpl < T) :
    seg * T + tpl < s * T := by
  have h1 : seg * T + tpl < (seg + 1) * T := by
    have : (seg + 1) * T = seg * T + T := by ring
    omega
  have h2 : (seg + 1) * T ≤ s * T := Nat.mul_le_mul_right T hs
  omega

/-- LIGO: every dependency id is strictly below its task's id. -/
theorem ligo_deps (s T : Nat) :
    ∀ t ∈ create_ligo_workflow s T, ∀ d ∈ t.deps, d < t.id := by
  intro t ht d hd
  rw [create_ligo_workflow] at ht
  rcases List.mem_append.mp ht with h6 | hlast
  rotate_left
  · -- Thinca or PostProcess
    rcases List.mem_cons.mp hlast with rfl | hpp
    · simp only [GenTask.deps_mk, GenTask.id_mk, List.mem_cons] at hd ⊢
      rcases hd with rfl | hinj
      · simp [thincaId]; omega
      · rw [injectionIds, injectionTasks_ids, List.mem_range'_1] at hinj
        simp [thincaId]; omega
    · rcases List.mem_cons.mp hpp with rfl | hnil
      · simp only [GenTask.deps_mk, GenTask.id_mk, List.mem_singleton] at hd ⊢
        omega
      · simp at hnil
  rcases List.mem_append.mp h6 with h5 | hJ
  rotate_left
  · -- Injection tasks
    rw [injectionTasks] at hJ
    obtain ⟨i, hi, rfl⟩ := by simpa using hJ
    simp only [GenTask.deps_mk, GenTask.id_mk, List.mem_singleton] at hd ⊢
    subst hd
    simp [templatebankId, trigbankId, coincBase]
    omega
  rcases List.mem_append.mp h5 with h4 | htrig
  rotate_left
  · -- TrigBank
    rcases List.mem_singleton.mp htrig with rfl
    simp only [GenTask.deps_mk, GenTask.id_mk] at hd ⊢
    rw [coincidenceIds, coincidenceTasks_ids, List.mem_range'_1] at hd
    simp [trigbankId]
    omega
  rcases List.mem_append.mp h4 with h3 | hC
  rotate_left
  · -- Coincidence
    rw [coincidenceTasks] at hC
    obtain ⟨g, hg, rfl⟩ := by simpa using hC
    simp only [GenTask.deps_mk, GenTask.id_mk, List.mem_flatMap] at hd ⊢
    obtain ⟨seg, hseg, hdin⟩ := hd
    rw [groupSegments, List.mem_range'_1] at hseg
    have hsegs : seg < s := by omega
    rw [inspiralIds] at hdin
    obtain ⟨tpl, htpl, rfl⟩ := by simpa using hdin
    have := mul_index_lt hsegs htpl
    simp [coincBase]
    omega
  rcases List.mem_append.mp h3 with h2 | hI
  rotate_left
  · -- Inspiral
    rw [inspiralTasks] at hI
    simp only [List.mem_flatMap, List.mem_map, List.mem_range] at hI
    obtain ⟨seg, hseg, tpl, htpl, rfl⟩ := hI
    simp only [GenTask.deps_mk, GenTask.id_mk, List.mem_cons, List.mem_singleton,
      List.not_mem_nil, or_false] at hd ⊢
    rcases hd with rfl | rfl
    · rw [datafindIds_getD s seg hseg]; omega
    · simp [templatebankId]; omega
  rcases List.mem_append.mp h2 with hA | htb
  · -- DataFind
    rw [datafindTasks] at hA
    obtain ⟨seg, hseg, rfl⟩ := by simpa using hA
    simp at hd
  · -- TemplateBank
    rcases List.mem_singleton.mp htb with rfl
    simp at hd

/-- LIGO invariant: ids contiguous `[1..N]`, dependencies strictly below. -/
theorem ligo_invariant (s T : Nat) :
    idsContigDepsBelow (create_ligo_workflow s T) 1 (ligoN s T) :=
  ⟨ligo_ids s T, ligo_deps s T⟩

theorem filter_ty_nil (l : List GenTask) (ty : String)
    (h : ∀ t ∈ l, t.taskType ≠ ty) :
    l.filter (fun t => t.taskType == ty) = [] := by
  apply List.filter_eq_nil_iff.mpr
  intro a ha
  simpa using h a ha

/-- Filtering the LIGO task list on type `Injection` yields exactly the
Injection stage block. -/
theorem ligo_filter_injection (s T : Nat) :
    (create_ligo_workflow s T).filter (fun t => t.taskType == "Injection") =
      injectionTasks s T := by
  rw [create_ligo_workflow]
  simp only [List.filter_append]
  have h1 : (datafindTasks s).filter (fun t => t.taskType == "Injection") = [] := by
    apply filter_ty_nil
    intro t ht
    rw [datafindTasks] at ht
    obtain ⟨seg, hseg, rfl⟩ := by simpa using ht
    simp
  have h2 : ([({ id := templatebankId s, taskType := "TemplateBank", deps := [] } : GenTask)]).filter
      (fun t => t.taskType == "Injection") = [] := by
    apply filter_ty_nil; intro t ht; rcases List.mem_singleton.mp ht with rfl; simp
  have h3 : (inspiralTasks s T).filter (fun t => t.taskType == "Injection") = [] := by
    apply filter_ty_nil
    intro t ht
    rw [inspiralTasks] at ht
    simp only [List.mem_flatMap, List.mem_map, List.mem_range] at ht
    obtain ⟨seg, hseg, tpl, htpl, rfl⟩ := ht
    simp
  have h4 : (coincidenceTasks s T).filter (fun t => t.taskType == "Injection") = [] := by
    apply filter_ty_nil
    intro t ht
    rw [coincidenceTasks] at ht
    obtain ⟨g, hg, rfl⟩ := by simpa using ht
    simp
  have h5 : ([({ id := trigbankId s T, taskType := "TrigBank",
                 deps := coincidenceIds s T } : GenTask)]).filter
      (fun t => t.taskType == "Injection") = [] := by
    apply filter_ty_nil; intro t ht; rcases List.mem_singleton.mp ht with rfl; simp
  have h6 : (injectionTasks s T).filter (fun t => t.taskType == "Injection") =
      injectionTasks s T := by
    apply List.filter_eq_self.mpr
    intro t ht
    rw [injectionTasks] at ht
    obtain ⟨i, hi, rfl⟩ := by simpa using ht
    simp
  have h7 : ([({ id := thincaId s T, taskType := "Thinca",
                 deps := trigbankId s T :: injectionIds s T } : GenTask),
              ({ id := thincaId s T + 1, taskType := "PostProcess",
                 deps := [thincaId s T] } : GenTask)]).filter
      (fun t => t.taskType == "Injection") = [] := by
    apply filter_ty_nil
    intro t ht
    rcases List.mem_cons.mp ht with rfl | ht2
    · simp
    · rcases List.mem_singleton.mp ht2 with rfl; simp
  rw [h1, h2, h3, h4, h5, h6, h7]
  simp

theorem injectionTasks_length (s T : Nat) :
    (injectionTasks s T).length = injectionJobs s := by
  simp [injectionTasks]

theorem injectionTasks_deps (s T : Nat) :
    ∀ t ∈ injectionTasks s T, t.deps = [templatebankId s] := by
  intro t ht
  rw [injectionTasks] at ht
  obtain ⟨i, hi, rfl⟩ := by simpa using ht
  simp

end Ligo

theorem getD_range' (a len i : Nat) (h : i < len) :
    (List.range' a len).getD i 0 = a + i := by
  rw [List.getD_eq_getElem?_getD, List.getElem?_range' _ _ (by simpa using h)]
  simp

theorem getD_map_range {β : Type} (f : Nat → β) (n i : Nat) (d : β) (h : i < n) :
    ((List.range n).map f).getD i d = f i := by
  rw [List.getD_eq_getElem?_getD, List.getElem?_map, List.getElem?_range h]
  rfl

namespace Epigenomics

theorem fastqcTasks_ids (n : Nat) :
    (fastqcTasks n).map GenTask.id = List.range' 1 (2 * n) := by
  rw [fastqcTasks, List.map_flatMap]
  have h : ∀ samp : Nat, (([{ id := 2 * samp + 1, taskType := "FastQC", deps := [] },
      { id := 2 * samp + 2, taskType := "FastQC", deps := [] }] : List GenTask).map GenTask.id)
      = List.range' (1 + samp * 2) 2 := by
    intro samp
    simp [List.range', List.cons.injEq]
    omega
  calc (List.range n).flatMap (fun samp =>
          (([{ id := 2 * samp + 1, taskType := "FastQC", deps := [] },
             { id := 2 * samp + 2, taskType := "FastQC", deps := [] }] :
             List GenTask).map GenTask.id))
      = (List.range n).flatMap (fun samp => List.range' (1 + samp * 2) 2) :=
        List.flatMap_congr fun samp _ => h samp
    _ = List.range' 1 (n * 2) := Ligo.flatMap_range'_blocks 1 2 n
    _ = List.range' 1 (2 * n) := by rw [Nat.mul_comm]

theorem fastqcIds_eq (n : Nat) : fastqcIds n = List.range' 1 (2 * n) := by
  rw [fastqcIds, fastqcTasks_ids]

theorem trimmingTasks_ids (n : Nat) :
    (trimmingTasks n).map GenTask.id = List.range' (2 * n + 1) n :=
  CyberShake.map_id_over_range _ (2 * n + 1) n fun _ => rfl

theorem trimmingIds_eq (n : Nat) : trimmingIds n = List.range' (2 * n + 1) n := by
  rw [trimmingIds, trimmingTasks_ids]

theorem alignmentTasks_ids (n : Nat) :
    (alignmentTasks n).map GenTask.id = List.range' (3 * n + 1) n :=
  CyberShake.map_id_over_range _ (3 * n + 1) n fun _ => rfl

theorem alignmentIds_eq (n : Nat) : alignmentIds n = List.range' (3 * n + 1) n := by
  rw [alignmentIds, alignmentTasks_ids]

theorem sortingTasks_ids (n : Nat) :
    (sortingTasks n).map GenTask.id = List.range' (4 * n + 1) n :=
  CyberShake.map_id_over_range _ (4 * n + 1) n fun _ => rfl

theorem sortingIds_eq (n : Nat) : sortingIds n = List.range' (4 * n + 1) n := by
  rw [sortingIds, sortingTasks_ids]

theorem dedupTasks_ids (n : Nat) :
    (dedupTasks n).map GenTask.id = List.range' (5 * n + 1) n :=
  CyberShake.map_id_over_range _ (5 * n + 1) n fun _ => rfl

theorem dedupIds_eq (n : Nat) : dedupIds n = List.range' (5 * n + 1) n := by
  rw [dedupIds, dedupTasks_ids]

theorem peakTasks_ids (n a : Nat) :
    (peakTasks n a).map GenTask.id = List.range' (6 * n + 1) (n * a) := by
  rw [peakTasks, List.map_flatMap]
  have h : ∀ samp : Nat, (((List.range a).map fun an =>
      ({ id := 6 * n + 1 + samp * a + an, taskType := "PeakCalling",
         deps := [(dedupIds n).getD samp 0] } : GenTask)).map GenTask.id)
      = List.range' ((6 * n + 1) + samp * a) a := fun samp =>
    CyberShake.map_id_over_range _ ((6 * n + 1) + samp * a) a fun _ => rfl
  calc (List.range n).flatMap (fun samp => (((List.range a).map fun an =>
          ({ id := 6 * n + 1 + samp * a + an, taskType := "PeakCalling",
             deps := [(dedupIds n).getD samp 0] } : GenTask)).map GenTask.id))
      = (List.range n).flatMap (fun samp => List.range' ((6 * n + 1) + samp * a) a) :=
        List.flatMap_congr fun samp _ => h samp
    _ = List.range' (6 * n + 1) (n * a) := Ligo.flatMap_range'_blocks (6 * n + 1) a n

theorem annotationTasks_ids (n a : Nat) :
    (annotationTasks n a).map GenTask.id = List.range' (6 * n + n * a + 1) n :=
  CyberShake.map_id_over_range _ (6 * n + n * a + 1) n fun _ => rfl

theorem annotationIds_eq (n a : Nat) :
    annotationIds n a = List.range' (6 * n + n * a + 1) n := by
  rw [annotationIds, annotationTasks_ids]

theorem differentialTasks_ids (n a : Nat) :
    (differentialTasks n a).map GenTask.id = List.range' (7 * n + n * a + 1) (diffJobs n) :=
  CyberShake.map_id_over_range _ (7 * n + n * a + 1) (diffJobs n) fun _ => rfl

theorem differentialIds_eq (n a : Nat) :
    differentialIds n a = List.range' (7 * n + n * a + 1) (diffJobs n) := by
  rw [differentialIds, differentialTasks_ids]

theorem visualizationTasks_ids (n a : Nat) :
    (visualizationTasks n a).map GenTask.id =
      List.range' (7 * n + n * a + diffJobs n + 1) (n + diffJobs n) := by
  rw [visualizationTasks, List.map_append]
  rw [CyberShake.map_id_over_range _ (7 * n + n * a + diffJobs n + 1) n fun _ => rfl,
    CyberShake.map_id_over_range _ (8 * n + n * a + diffJobs n + 1) (diffJobs n) fun _ => rfl]
  exact range'_join' _ n (diffJobs n) _ _ (by omega) rfl

theorem visualizationIds_eq (n a : Nat) :
    visualizationIds n a = List.range' (7 * n + n * a + diffJobs n + 1) (n + diffJobs n) := by
  rw [visualizationIds, visualizationTasks_ids]

/-- Epigenomics ids are exactly the contiguous range `[1..epigN n a]`. -/
theorem epig_ids (n a : Nat) :
    (create_epigenomics_workflow n a).map GenTask.id = List.range' 1 (epigN n a) := by
  simp only [create_epigenomics_workflow, List.map_append, List.map_cons, List.map_nil,
    fastqcTasks_ids, trimmingTasks_ids, alignmentTasks_ids, sortingTasks_ids,
    dedupTasks_ids, peakTasks_ids, annotationTasks_ids, differentialTasks_ids,
    visualizationTasks_ids, GenTask.id_mk]
  rw [show ([epigN n a] : List Nat) = List.range' (epigN n a) 1 by simp]
  rw [range'_join' 1 (2 * n) n (2 * n + 1) (3 * n) (by omega) (by omega),
    range'_join' 1 (3 * n) n (3 * n + 1) (4 * n) (by omega) (by omega),
    range'_join' 1 (4 * n) n (4 * n + 1) (5 * n) (by omega) (by omega),
    range'_join' 1 (5 * n) n (5 * n + 1) (6 * n) (by omega) (by omega),
    range'_join' 1 (6 * n) (n * a) (6 * n + 1) (6 * n + n * a) (by omega) (by omega),
    range'_join' 1 (6 * n + n * a) n (6 * n + n * a + 1) (7 * n + n * a)
      (by omega) (by omega),
    range'_join' 1 (7 * n + n * a) (diffJobs n) (7 * n + n * a + 1)
      (7 * n + n * a + diffJobs n) (by omega) (by omega),
    range'_join' 1 (7 * n + n * a + diffJobs n) (n + diffJobs n)
      (7 * n + n * a + diffJobs n + 1) (8 * n + n * a + 2 * diffJobs n)
      (by omega) (by omega),
    range'_join' 1 (8 * n + n * a + 2 * diffJobs n) 1 (epigN n a) (epigN n a)
      (by simp only [epigN]; omega) (by simp only [epigN])]

end Epigenomics

theorem range'_idx (B len i : Nat) (h : i < len) :
    (List.range' B len)[i]?.getD 0 = B + i := by
  have e := getD_range' B len i h
  rwa [List.getD_eq_getElem?_getD] at e

namespace Epigenomics

/-- Epigenomics: every dependency id is strictly below its task's id. -/
theorem epig_deps (n a : Nat) :
    ∀ t ∈ create_epigenomics_workflow n a, ∀ d ∈ t.deps, d < t.id := by
  intro t ht d hd
  rw [create_epigenomics_workflow] at ht
  rcases List.mem_append.mp ht with h9 | hfin
  rotate_left
  · -- FinalReport
    rcases List.mem_singleton.mp hfin with rfl
    simp only [GenTask.deps_mk, GenTask.id_mk, List.mem_append] at hd ⊢
    rcases hd with hdiff | hvis
    · rw [differentialIds_eq, List.mem_range'_1] at hdiff
      simp only [epigN]
      omega
    · rw [visualizationIds_eq, List.mem_range'_1] at hvis
      simp only [epigN]
      omega
  rcases List.mem_append.mp h9 with h8 | hvis
  rotate_left
  · -- Visualization
    rw [visualizationTasks] at hvis
    rcases List.mem_append.mp hvis with hind | hdv
    · obtain ⟨samp, hsamp, rfl⟩ := by simpa using hind
      simp only [GenTask.deps_mk, GenTask.id_mk, List.mem_singleton] at hd ⊢
      subst hd
      rw [annotationIds_eq, range'_idx _ n samp hsamp]
      omega
    · obtain ⟨g, hg, rfl⟩ := by simpa using hdv
      simp only [GenTask.deps_mk, GenTask.id_mk, List.mem_singleton] at hd ⊢
      subst hd
      rw [differentialIds_eq, range'_idx _ (diffJobs n) g hg]
      omega
  rcases List.mem_append.mp h8 with h7 | hdiff
  rotate_left
  · -- DifferentialAnalysis
    rw [differentialTasks] at hdiff
    obtain ⟨g, hg, rfl⟩ := by simpa using hdiff
    simp only [GenTask.deps_mk, GenTask.id_mk, List.mem_map, List.mem_filter] at hd ⊢
    obtain ⟨smp, ⟨hsmp_mem, hsmp_lt⟩, rfl⟩ := hd
    have hlt : smp < n := by simpa using hsmp_lt
    rw [annotationIds_eq, range'_idx _ n smp hlt]
    omega
  rcases List.mem_append.mp h7 with h6 | hann
  rotate_left
  · -- Annotation
    rw [annotationTasks] at hann
    obtain ⟨samp, hsamp, rfl⟩ := by simpa using hann
    simp only [GenTask.deps_mk, GenTask.id_mk] at hd ⊢
    have e := getD_map_range
      (fun samp => (List.range a).map fun an => 6 * n + 1 + samp * a + an)
      n samp ([] : List Nat) hsamp
    have e2 := e
    rw [List.getD_eq_getElem?_getD] at e2
    rw [peakIdLists] at hd
    simp only [e, e2] at hd
    obtain ⟨an, han, rfl⟩ := by simpa using hd
    have := Ligo.mul_index_lt hsamp han
    omega
  rcases List.mem_append.mp h6 with h5 | hpeak
  rotate_left
  · -- PeakCalling
    rw [peakTasks] at hpeak
    simp only [List.mem_flatMap, List.mem_map, List.mem_range] at hpeak
    obtain ⟨samp, hsamp, an, han, rfl⟩ := hpeak
    simp only [GenTask.deps_mk, GenTask.id_mk, List.mem_singleton] at hd ⊢
    subst hd
    rw [dedupIds_eq]
    have e := getD_range' (5 * n + 1) n samp hsamp
    have e2 := e
    rw [List.getD_eq_getElem?_getD] at e2
    simp only [e, e2]
    omega
  rcases List.mem_append.mp h5 with h4 | hded
  rotate_left
  · -- Deduplication
    rw [dedupTasks] at hded
    obtain ⟨samp, hsamp, rfl⟩ := by simpa using hded
    simp only [GenTask.deps_mk, GenTask.id_mk, List.mem_singleton] at hd ⊢
    subst hd
    rw [sortingIds_eq, range'_idx _ n samp hsamp]
    omega
  rcases List.mem_append.mp h4 with h3 | hsort
  rotate_left
  · -- Sorting
    rw [sortingTasks] at hsort
    obtain ⟨samp, hsamp, rfl⟩ := by simpa using hsort
    simp only [GenTask.deps_mk, GenTask.id_mk, List.mem_singleton] at hd ⊢
    subst hd
    rw [alignmentIds_eq, range'_idx _ n samp hsamp]
    omega
  rcases List.mem_append.mp h3 with h2 | halign
  rotate_left
  · -- Alignment
    rw [alignmentTasks] at halign
    obtain ⟨samp, hsamp, rfl⟩ := by simpa using halign
    simp only [GenTask.deps_mk, GenTask.id_mk, List.mem_singleton] at hd ⊢
    subst hd
    rw [trimmingIds_eq, range'_idx _ n samp hsamp]
    omega
  rcases List.mem_append.mp h2 with hfq | htrim
  · -- FastQC
    rw [fastqcTasks] at hfq
    simp only [List.mem_flatMap, List.mem_range, List.mem_cons,
      List.not_mem_nil, or_false] at hfq
    obtain ⟨samp, hsamp, rfl | rfl⟩ := hfq <;> simp at hd
  · -- Trimming
    rw [trimmingTasks] at htrim
    obtain ⟨samp, hsamp, rfl⟩ := by simpa using htrim
    simp only [GenTask.deps_mk, GenTask.id_mk, List.mem_cons, List.mem_singleton,
      List.not_mem_nil, or_false] at hd ⊢
    rw [fastqcIds_eq] at hd
    have e1 := getD_range' 1 (2 * n) (2 * samp) (by omega)
    have e2 := getD_range' 1 (2 * n) (2 * samp + 1) (by omega)
    rw [List.getD_eq_getElem?_getD] at e1 e2
    rcases hd with rfl | rfl
    · rw [e1]; omega
    · rw [e2]; omega

/-- Epigenomics invariant: ids contiguous `[1..N]`, deps strictly below. -/
theorem epig_invariant (n a : Nat) :
    idsContigDepsBelow (create_epigenomics_workflow n a) 1 (epigN n a) :=
  ⟨epig_ids n a, epig_deps n a⟩

end Epigenomics

namespace Validator

theorem dmUpdate_self_none {m : List (Nat × Nat)} {t : Nat} (d : Nat)
    (h : dmLookup m t = none) : dmLookup (dmUpdate m t d) t = some d := by
  induction m with
  | nil => simp [dmUpdate, dmLookup]
  | cons kv rest ih =>
    obtain ⟨k, v⟩ := kv
    by_cases hk : k = t
    · subst hk
      simp [dmLookup] at h
    · simp only [dmUpdate, if_neg hk]
      simp only [dmLookup, if_neg hk] at h ⊢
      exact ih h

theorem dmUpdate_self_some {m : List (Nat × Nat)} {t v : Nat} (d : Nat)
    (h : dmLookup m t = some v) : dmLookup (dmUpdate m t d) t = some (max v d) := by
  induction m with
  | nil => simp [dmLookup] at h
  | cons kv rest ih =>
    obtain ⟨k, w⟩ := kv
    by_cases hk : k = t
    · subst hk
      simp only [dmLookup, if_pos rfl] at h
      injection h with h
      subst h
      simp [dmUpdate, dmLookup]
    · simp only [dmUpdate, if_neg hk]
      simp only [dmLookup, if_neg hk] at h ⊢
      exact ih h

theorem dmUpdate_other {m : List (Nat × Nat)} {t k : Nat} (d : Nat) (h : k ≠ t) :
    dmLookup (dmUpdate m t d) k = dmLookup m k := by
  induction m with
  | nil =>
    simp only [dmUpdate, dmLookup]
    rw [if_neg (Ne.symm h)]
  | cons kv rest ih =>
    obtain ⟨k', v⟩ := kv
    by_cases hk : k' = t
    · subst hk
      simp only [dmUpdate, if_pos rfl, dmLookup]
      rw [if_neg (fun he => h he.symm), if_neg (fun he => h he.symm)]
    · simp only [dmUpdate, if_neg hk, dmLookup]
      by_cases hkk : k' = k
      · rw [if_pos hkk, if_pos hkk]
      · rw [if_neg hkk, if_neg hkk]
        exact ih

theorem levelBfs_mono (g : Graph) :
    ∀ fuel q m m', levelBfs g fuel q m = some m' →
      ∀ v k, dmLookup m v = some k → ∃ k', k ≤ k' ∧ dmLookup m' v = some k' := by
  intro fuel
  induction fuel with
  | zero =>
    intro q m m' h v k hv
    cases q with
    | nil =>
      simp only [levelBfs, Option.some.injEq] at h
      subst h
      exact ⟨k, le_refl k, hv⟩
    | cons hd tl => simp [levelBfs] at h
  | succ f ih =>
    intro q m m' h v k hv
    cases q with
    | nil =>
      simp only [levelBfs, Option.some.injEq] at h
      subst h
      exact ⟨k, le_refl k, hv⟩
    | cons hd tl =>
      obtain ⟨t, d⟩ := hd
      simp only [levelBfs] at h
      by_cases hvt : v = t
      · subst hvt
        have h2 := dmUpdate_self_some d hv
        obtain ⟨k', hk', hl⟩ := ih _ _ _ h v (max k d) h2
        exact ⟨k', le_trans (Nat.le_max_left k d) hk', hl⟩
      · have h2 : dmLookup (dmUpdate m t d) v = some k := by
          rw [dmUpdate_other d hvt]; exact hv
        exact ih _ _ _ h v k h2

theorem levelBfs_sound (g : Graph) :
    ∀ fuel q m m', levelBfs g fuel q m = some m' →
      ∀ v k, dmLookup m' v = some k →
        dmLookup m v = some k ∨ ∃ p ∈ q, Ext g p (v, k) := by
  intro fuel
  induction fuel with
  | zero =>
    intro q m m' h v k hv
    cases q with
    | nil =>
      simp only [levelBfs, Option.some.injEq] at h
      subst h
      exact Or.inl hv
    | cons hd tl => simp [levelBfs] at h
  | succ f ih =>
    intro q m m' h v k hv
    cases q with
    | nil =>
      simp only [levelBfs, Option.some.injEq] at h
      subst h
      exact Or.inl hv
    | cons hd tl =>
      obtain ⟨t, d⟩ := hd
      simp only [levelBfs] at h
      rcases ih _ _ _ h v k hv with hup | ⟨p, hp, hext⟩
      · -- the entry came from the updated map
        by_cases hvt : v = t
        · subst hvt
          cases hmt : dmLookup m v with
          | none =>
            rw [dmUpdate_self_none d hmt] at hup
            injection hup with hup
            subst hup
            exact Or.inr ⟨(v, d), List.mem_cons_self _ _, Ext.refl _⟩
          | some w =>
            rw [dmUpdate_self_some d hmt] at hup
            injection hup with hup
            rcases max_choice w d with hmax | hmax
            · exact Or.inl (by simp only [Option.some.injEq]; omega)
            · refine Or.inr ⟨(v, d), List.mem_cons_self _ _, ?_⟩
              have hkd : k = d := by omega
              rw [hkd]
              exact Ext.refl _
        · rw [dmUpdate_other d hvt] at hup
          exact Or.inl hup
      · -- the entry came from the extended queue
        rcases List.mem_append.mp hp with hp | hp
        · exact Or.inr ⟨p, List.mem_cons_of_mem _ hp, hext⟩
        · obtain ⟨n, hn, rfl⟩ := List.mem_map.mp hp
          exact Or.inr ⟨(t, d), List.mem_cons_self _ _, Ext.step hn hext⟩

theorem levelBfs_complete (g : Graph) :
    ∀ fuel q m m', levelBfs g fuel q m = some m' →
      ∀ p ∈ q, ∀ v dd, Ext g p (v, dd) →
        ∃ k, dd ≤ k ∧ dmLookup m' v = some k := by
  intro fuel
  induction fuel with
  | zero =>
    intro q m m' h p hp
    cases q with
    | nil => simp at hp
    | cons hd tl => simp [levelBfs] at h
  | succ f ih =>
    intro q m m' h p hp v dd hext
    cases q with
    | nil => simp at hp
    | cons hd tl =>
      obtain ⟨t, d⟩ := hd
      simp only [levelBfs] at h
      rcases List.mem_cons.mp hp with rfl | hp
      · -- p is the popped head (t, d)
        cases hext with
        | refl _ =>
          -- (v, dd) = (t, d): the update records depth ≥ d for t
          cases hmt : dmLookup m v with
          | none =>
            exact levelBfs_mono g _ _ _ _ h v dd (dmUpdate_self_none dd hmt)
          | some w =>
            obtain ⟨k, hk, hl⟩ :=
              levelBfs_mono g _ _ _ _ h v (max w dd) (dmUpdate_self_some dd hmt)
            exact ⟨k, le_trans (Nat.le_max_right w dd) hk, hl⟩
        | step hn hext' =>
          -- the successor entry is in the extended queue
          rename_i n
          apply ih _ _ _ h (n, d + 1) _ v dd hext'
          exact List.mem_append.mpr (Or.inr (List.mem_map.mpr ⟨n, hn, rfl⟩))
      · exact ih _ _ _ h p (List.mem_append.mpr (Or.inl hp)) v dd hext

theorem ext_inv (g : Graph) : ∀ {p q : Nat × Nat}, Ext g p q →
    p = q ∨ ∃ pr d', q.2 = d' + 1 ∧ q.1 ∈ adjList g pr ∧ Ext g p (pr, d') := by
  intro p q h
  induction h with
  | refl _ => exact Or.inl rfl
  | step hmem hext ih =>
    rename_i t e n q'
    rcases ih with rfl | ⟨pr, d', hq, hmem', hext'⟩
    · exact Or.inr ⟨t, e, rfl, hmem, Ext.refl _⟩
    · exact Or.inr ⟨pr, d', hq, hmem', Ext.step hmem hext'⟩

theorem ext_snoc' (g : Graph) : ∀ {p q : Nat × Nat} {w : Nat},
    Ext g p q → w ∈ adjList g q.1 → Ext g p (w, q.2 + 1) := by
  intro p q w h
  induction h with
  | refl _ => exact fun hw => Ext.step hw (Ext.refl _)
  | step hmem _ ih => exact fun hw => Ext.step hmem (ih hw)

theorem ext_snoc (g : Graph) {p : Nat × Nat} {v d w : Nat}
    (h : Ext g p (v, d)) (hw : w ∈ adjList g v) : Ext g p (w, d + 1) :=
  ext_snoc' g h hw

theorem mem_adjList {g : Graph} {t n : Nat} : n ∈ adjList g t ↔ (t, n) ∈ g.edges := by
  simp only [adjList, List.mem_map, List.mem_filter, beq_iff_eq]
  constructor
  · rintro ⟨⟨a, b⟩, ⟨hmem, hfst⟩, hsnd⟩
    simp only at hfst hsnd
    subst hfst; subst hsnd
    exact hmem
  · intro h
    exact ⟨(t, n), ⟨h, rfl⟩, rfl⟩

theorem mem_predsOf {g : Graph} {v p : Nat} : p ∈ predsOf g v ↔ (p, v) ∈ g.edges := by
  simp only [predsOf, List.mem_map, List.mem_filter, beq_iff_eq]
  constructor
  · rintro ⟨⟨a, b⟩, ⟨hmem, hsnd⟩, hfst⟩
    simp only at hfst hsnd
    subst hfst; subst hsnd
    exact hmem
  · intro h
    exact ⟨(p, v), ⟨h, rfl⟩, rfl⟩

theorem inDeg_pos_of_edge {g : Graph} {p v : Nat} (h : (p, v) ∈ g.edges) :
    0 < inDeg g v := by
  rw [inDeg, List.length_pos]
  intro hnil
  have : (p, v) ∈ g.edges.filter fun e => e.2 == v :=
    List.mem_filter.mpr ⟨h, by simp⟩
  rw [hnil] at this
  simp at this

theorem inDeg_pos_iff {g : Graph} {v : Nat} :
    0 < inDeg g v ↔ ∃ p, (p, v) ∈ g.edges := by
  constructor
  · intro h
    rw [inDeg, List.length_pos] at h
    obtain ⟨e, he⟩ := List.exists_mem_of_ne_nil _ h
    have hm := List.mem_filter.mp he
    have hsnd : e.2 = v := by simpa using hm.2
    exact ⟨e.1, by rw [← hsnd]; exact hm.1⟩
  · rintro ⟨p, hp⟩
    exact inDeg_pos_of_edge hp

theorem mem_rootsOf {g : Graph} {r : Nat} :
    r ∈ rootsOf g ↔ r ∈ g.tasks ∧ inDeg g r = 0 := by
  simp [rootsOf, List.mem_filter]

/-- Every task is reachable, via `Ext`, from some root, when edges go from
lower to higher ids (the generator invariant) and edge sources are tasks. -/
theorem ground (g : Graph) (hmono : ∀ e ∈ g.edges, e.1 < e.2)
    (hclosed : ∀ e ∈ g.edges, e.1 ∈ g.tasks) :
    ∀ v, v ∈ g.tasks → ∃ r ∈ rootsOf g, ∃ d, Ext g (r, 0) (v, d) := by
  intro v
  induction v using Nat.strong_induction_on with
  | _ v ih =>
    intro hv
    by_cases h0 : inDeg g v = 0
    · exact ⟨v, mem_rootsOf.mpr ⟨hv, h0⟩, 0, Ext.refl _⟩
    · obtain ⟨p, hp⟩ := inDeg_pos_iff.mp (Nat.pos_of_ne_zero h0)
      have hlt : p < v := hmono _ hp
      obtain ⟨r, hr, d, hext⟩ := ih p hlt (hclosed _ hp)
      exact ⟨r, hr, d + 1, ext_snoc g hext (mem_adjList.mpr hp)⟩

theorem foldr_max_mem : ∀ (l : List Nat), l ≠ [] → l.foldr max 0 ∈ l := by
  intro l
  induction l with
  | nil => intro h; exact absurd rfl h
  | cons x xs ih =>
    intro _
    cases hxs : xs with
    | nil => simp
    | cons y ys =>
      rw [← hxs]
      simp only [List.foldr_cons]
      rcases max_choice x (xs.foldr max 0) with h | h
      · rw [h]; exact List.mem_cons_self _ _
      · rw [h]
        exact List.mem_cons_of_mem _ (ih (by rw [hxs]; simp))

theorem le_foldr_max : ∀ {x : Nat} {l : List Nat}, x ∈ l → x ≤ l.foldr max 0 := by
  intro x l
  induction l with
  | nil => intro h; simp at h
  | cons y ys ih =>
    intro h
    rcases List.mem_cons.mp h with rfl | h
    · simp only [List.foldr_cons]
      exact Nat.le_max_left _ _
    · simp only [List.foldr_cons]
      exact le_trans (ih h) (Nat.le_max_right _ _)

/-- Roots (in-degree 0) are assigned level 0 by the level BFS. -/
theorem computeLevels_root (g : Graph) (fuel : Nat) (m : List (Nat × Nat))
    (hrun : computeLevels g fuel = some m) :
    ∀ r, r ∈ g.tasks → inDeg g r = 0 → dmLookup m r = some 0 := by
  have hrun' : levelBfs g fuel ((rootsOf g).map fun r => (r, 0)) [] = some m := hrun
  intro r hr h0
  have hroot : r ∈ rootsOf g := mem_rootsOf.mpr ⟨hr, h0⟩
  have hq : (r, 0) ∈ (rootsOf g).map (fun r => (r, 0)) := List.mem_map.mpr ⟨r, hroot, rfl⟩
  obtain ⟨k, hk0, hl⟩ := levelBfs_complete g fuel _ [] m hrun' (r, 0) hq r 0 (Ext.refl _)
  rcases levelBfs_sound g fuel _ [] m hrun' r k hl with hempty | ⟨p, hp, hext⟩
  · simp [dmLookup] at hempty
  · obtain ⟨r0, hr0, rfl⟩ := List.mem_map.mp hp
    rcases ext_inv g hext with heq | ⟨pr, d', hq2, hmem', hext'⟩
    · injection heq with h1 h2
      rw [hl, ← h2]
    · exfalso
      have hm2 : r ∈ adjList g pr := hmem'
      have := inDeg_pos_of_edge (mem_adjList.mp hm2)
      omega

/-- Non-roots are assigned level `1 + max(level of predecessors)` by the
level BFS, provided edges go from lower to higher ids and edge sources are
tasks (so that every predecessor is itself reachable from a root). -/
theorem computeLevels_nonroot (g : Graph) (fuel : Nat) (m : List (Nat × Nat))
    (hrun : computeLevels g fuel = some m)
    (hmono : ∀ e ∈ g.edges, e.1 < e.2)
    (hclosed : ∀ e ∈ g.edges, e.1 ∈ g.tasks) :
    ∀ v, 0 < inDeg g v →
      dmLookup m v =
        some (((predsOf g v).map fun p => (dmLookup m p).getD 0).foldr max 0 + 1) := by
  have hrun' : levelBfs g fuel ((rootsOf g).map fun r => (r, 0)) [] = some m := hrun
  intro v hpos
  have hplevel : ∀ p ∈ predsOf g v, ∃ kp, dmLookup m p = some kp := by
    intro p hp
    have hedge := mem_predsOf.mp hp
    obtain ⟨r, hr, dp, hext⟩ := ground g hmono hclosed p (hclosed _ hedge)
    obtain ⟨kp, _, hl⟩ := levelBfs_complete g fuel _ [] m hrun' (r, 0)
      (List.mem_map.mpr ⟨r, hr, rfl⟩) p dp hext
    exact ⟨kp, hl⟩
  set L := ((predsOf g v).map fun p => (dmLookup m p).getD 0).foldr max 0 with hL
  have hpreds_ne : predsOf g v ≠ [] := by
    obtain ⟨p, hp⟩ := inDeg_pos_iff.mp hpos
    intro hnil
    have := mem_predsOf.mpr hp
    rw [hnil] at this
    simp at this
  have hmapne : ((predsOf g v).map fun p => (dmLookup m p).getD 0) ≠ [] := by
    simpa using hpreds_ne
  have hLmem := foldr_max_mem _ hmapne
  rw [← hL] at hLmem
  obtain ⟨pstar, hpstar, hval⟩ := List.mem_map.mp hLmem
  obtain ⟨kstar, hkstar⟩ := hplevel pstar hpstar
  have hkL : kstar = L := by
    rw [hkstar] at hval
    simpa using hval
  have hlow : ∃ k, L + 1 ≤ k ∧ dmLookup m v = some k := by
    rcases levelBfs_sound g fuel _ [] m hrun' pstar kstar hkstar with hemp | ⟨p0, hp0, hext⟩
    · simp [dmLookup] at hemp
    · obtain ⟨r0, hr0, rfl⟩ := List.mem_map.mp hp0
      have hedge : (pstar, v) ∈ g.edges := mem_predsOf.mp hpstar
      have hext2 : Ext g (r0, 0) (v, kstar + 1) := ext_snoc g hext (mem_adjList.mpr hedge)
      obtain ⟨k, hk, hl⟩ := levelBfs_complete g fuel _ [] m hrun' (r0, 0)
        (List.mem_map.mpr ⟨r0, hr0, rfl⟩) v (kstar + 1) hext2
      exact ⟨k, by omega, hl⟩
  obtain ⟨k, hkge, hkl⟩ := hlow
  have hkle : k ≤ L + 1 := by
    rcases levelBfs_sound g fuel _ [] m hrun' v k hkl with hemp | ⟨p0, hp0, hext⟩
    · simp [dmLookup] at hemp
    · obtain ⟨r0, hr0, rfl⟩ := List.mem_map.mp hp0
      rcases ext_inv g hext with heq | ⟨pr, d', hq2, hmem', hext'⟩
      · exfalso
        injection heq with h1 h2
        subst h1
        have := (mem_rootsOf.mp hr0).2
        omega
      · have hk2 : k = d' + 1 := hq2
        have hm2 : v ∈ adjList g pr := hmem'
        have hedge : (pr, v) ∈ g.edges := mem_adjList.mp hm2
        have hprmem : pr ∈ predsOf g v := mem_predsOf.mpr hedge
        obtain ⟨kpr, hkpr, hkprl⟩ := levelBfs_complete g fuel _ [] m hrun' (r0, 0)
          (List.mem_map.mpr ⟨r0, hr0, rfl⟩) pr d' hext'
        have hprval : (dmLookup m pr).getD 0 ≤ L := by
          apply le_foldr_max
          exact List.mem_map.mpr ⟨pr, hprmem, rfl⟩
        rw [hkprl] at hprval
        simp only [Option.getD_some] at hprval
        omega
  have hfin : k = L + 1 := le_antisymm hkle hkge
  rw [hkl, hfin]

@[simp] theorem chainGraph_tasks (n : Nat) : (chainGraph n).tasks = List.range' 1 n := rfl

@[simp] theorem chainGraph_edges (n : Nat) :
    (chainGraph n).edges = (List.range' 1 (n - 1)).map fun i => (i, i + 1) := rfl

theorem filter_range'_beq (k : Nat) : ∀ (len a : Nat),
    (List.range' a len).filter (fun i => i == k) =
      if a ≤ k ∧ k < a + len then [k] else [] := by
  intro len
  induction len with
  | zero => intro a; simp
  | succ l ih =>
    intro a
    rw [List.range'_succ, List.filter_cons]
    by_cases hak : a = k
    · subst hak
      simp only [beq_self_eq_true, if_true]
      rw [ih (a + 1), if_neg (by omega), if_pos (by omega)]
    · have hbeq : (a == k) = false := by simpa using hak
      rw [hbeq]
      simp only [Bool.false_eq_true, if_false]
      rw [ih (a + 1)]
      by_cases hk : a + 1 ≤ k ∧ k < a + 1 + l
      · rw [if_pos hk, if_pos (by omega)]
      · rw [if_neg hk, if_neg (by omega)]

theorem filter_range'_succ_beq (k : Nat) : ∀ (len a : Nat),
    (List.range' a len).filter (fun i => i + 1 == k) =
      if a + 1 ≤ k ∧ k < a + len + 1 then [k - 1] else [] := by
  intro len
  induction len with
  | zero => intro a; simp
  | succ l ih =>
    intro a
    rw [List.range'_succ, List.filter_cons]
    by_cases hak : a + 1 = k
    · have hbeq : (a + 1 == k) = true := by simpa using hak
      rw [hbeq]
      simp only [if_true]
      rw [ih (a + 1), if_neg (by omega), if_pos (by omega)]
      congr 1
      omega
    · have hbeq : (a + 1 == k) = false := by simpa using hak
      rw [hbeq]
      simp only [Bool.false_eq_true, if_false]
      rw [ih (a + 1)]
      by_cases hk : a + 1 + 1 ≤ k ∧ k < a + 1 + l + 1
      · rw [if_pos hk, if_pos (by omega)]
      · rw [if_neg hk, if_neg (by omega)]

theorem chain_adjList (n k : Nat) :
    adjList (chainGraph n) k = if 1 ≤ k ∧ k < n then [k + 1] else [] := by
  rw [adjList, chainGraph_edges, List.filter_map]
  have hcomp : ((fun e : Nat × Nat => e.1 == k) ∘ fun i => (i, i + 1)) =
      fun i => i == k := rfl
  rw [hcomp, filter_range'_beq k (n - 1) 1]
  by_cases hk : 1 ≤ k ∧ k < 1 + (n - 1)
  · rw [if_pos hk, if_pos (by omega)]
    rfl
  · rw [if_neg hk, if_neg (by omega)]
    rfl

theorem chain_inDeg (n k : Nat) :
    inDeg (chainGraph n) k = if 2 ≤ k ∧ k ≤ n then 1 else 0 := by
  rw [inDeg, chainGraph_edges, List.filter_map]
  have hcomp : ((fun e : Nat × Nat => e.2 == k) ∘ fun i => (i, i + 1)) =
      fun i => i + 1 == k := rfl
  rw [hcomp, filter_range'_succ_beq k (n - 1) 1]
  by_cases hk : 1 + 1 ≤ k ∧ k < 1 + (n - 1) + 1
  · rw [if_pos hk, if_pos (by omega)]
    rfl
  · rw [if_neg hk, if_neg (by omega)]
    rfl

theorem chain_roots (n : Nat) (hn : 1 ≤ n) : rootsOf (chainGraph n) = [1] := by
  obtain ⟨m, rfl⟩ : ∃ m, n = m + 1 := ⟨n - 1, by omega⟩
  rw [rootsOf, chainGraph_tasks, List.range'_succ, List.filter_cons]
  have h1 : (inDeg (chainGraph (m + 1)) 1 == 0) = true := by
    rw [chain_inDeg, if_neg (by omega)]
    rfl
  rw [h1]
  simp only [if_true]
  congr 1
  apply List.filter_eq_nil_iff.mpr
  intro t ht
  rw [List.mem_range'_1] at ht
  rw [chain_inDeg, if_pos (by omega)]
  simp

theorem chain_leaves (n : Nat) (hn : 1 ≤ n) : leavesOf (chainGraph n) = [n] := by
  obtain ⟨m, rfl⟩ : ∃ m, n = m + 1 := ⟨n - 1, by omega⟩
  rw [leavesOf, chainGraph_tasks, List.range'_concat, List.filter_append]
  have h1 : (List.range' 1 m).filter
      (fun t => (adjList (chainGraph (m + 1)) t).length == 0) = [] := by
    apply List.filter_eq_nil_iff.mpr
    intro t ht
    rw [List.mem_range'_1] at ht
    rw [chain_adjList, if_pos (by omega)]
    simp
  rw [h1]
  have h2 : (adjList (chainGraph (m + 1)) (1 + 1 * m)).length == 0 := by
    rw [chain_adjList, if_neg (by omega)]
    rfl
  simp only [List.filter_cons, h2, if_true, List.filter_nil, List.nil_append]
  congr 1
  omega

theorem chain_cpBfs (n : Nat) (hn : 1 ≤ n) : ∀ (j k l : Nat) (vis : List Nat) (mp : Nat),
    k + j = n → 1 ≤ k → (∀ x ∈ vis, x < k) →
      cpBfs (chainGraph n) (j + 1) [(k, l)] vis mp = some (max mp (l + j)) := by
  intro j
  induction j with
  | zero =>
    intro k l vis mp hkj hk hvis
    have hkn : k = n := by omega
    subst hkn
    rw [cpBfs]
    rw [if_neg (fun hmem => absurd (hvis _ hmem) (by omega))]
    rw [chain_leaves k hn]
    rw [if_pos (List.mem_singleton.mpr rfl)]
    rw [chain_adjList, if_neg (by omega)]
    simp [cpBfs]
  | succ j ih =>
    intro k l vis mp hkj hk hvis
    rw [cpBfs]
    rw [if_neg (fun hmem => absurd (hvis _ hmem) (by omega))]
    rw [chain_leaves n hn]
    rw [if_neg (by
      intro hmem
      rw [List.mem_singleton] at hmem
      omega)]
    rw [chain_adjList, if_pos (by omega)]
    have hfil : ([k + 1].filter fun x => x ∉ (k :: vis)) = [k + 1] := by
      apply List.filter_eq_self.mpr
      intro b hb
      rw [List.mem_singleton] at hb
      subst hb
      simp only [decide_eq_true_eq]
      intro hmem
      rcases List.mem_cons.mp hmem with h | h
      · omega
      · exact absurd (hvis _ h) (by omega)
    rw [hfil]
    simp only [List.nil_append, List.map_cons, List.map_nil]
    rw [ih (k + 1) (l + 1) (k :: vis) mp (by omega) (by omega) ?_]
    · congr 1
      omega
    · intro x hx
      rcases List.mem_cons.mp hx with rfl | hx
      · omega
      · exact lt_trans (hvis _ hx) (by omega)

/-- `critical_path_length` on the unbranched chain of `n ≥ 1` tasks is `n`
(the number of TASKS on the path, not edges). -/
theorem chain_criticalPathLength (n : Nat) (hn : 1 ≤ n) :
    criticalPathLength (chainGraph n) n = some n := by
  obtain ⟨m, rfl⟩ : ∃ m, n = m + 1 := ⟨n - 1, by omega⟩
  rw [criticalPathLength, chain_roots (m + 1) hn, chain_leaves (m + 1) hn]
  simp only [List.isEmpty_cons, Bool.or_self, Bool.false_eq_true, if_false]
  show (cpBfs (chainGraph (m + 1)) (m + 1) [(1, 1)] [] 0).bind _ = some (m + 1)
  rw [chain_cpBfs (m + 1) hn m 1 1 [] 0 (by omega) (by omega) (by simp)]
  show some _ = _
  congr 1
  omega

end Validator

namespace Matrixes

variable {α : Type} [Inhabited α]

theorem mkRow_length (band : α → α → ℚ → ℚ) (u : Nat → ℚ) (ti : α) (i : Nat) :
    ∀ (l : List α) (j c : Nat), (mkRow band u ti i l j c).1.length = l.length := by
  intro l
  induction l with
  | nil => intro j c; simp [mkRow]
  | cons tj rest ih =>
    intro j c
    rw [mkRow]
    by_cases hij : i = j
    · rw [if_pos hij]; simp [ih]
    · rw [if_neg hij]; simp [ih]

theorem mkRows_length (band : α → α → ℚ → ℚ) (u : Nat → ℚ) (vms : List α) :
    ∀ (rows : List α) (i c : Nat), (mkRows band u vms rows i c).length = rows.length := by
  intro rows
  induction rows with
  | nil => intro i c; simp [mkRows]
  | cons ti rest ih => intro i c; simp [mkRows, ih]

theorem mkRow_diag (band : α → α → ℚ → ℚ) (u : Nat → ℚ) (ti : α) (i : Nat) :
    ∀ (l : List α) (j c k : Nat), k < l.length → i = j + k →
      (mkRow band u ti i l j c).1.getD k 0 = 0 := by
  intro l
  induction l with
  | nil => intro j c k hk; simp at hk
  | cons tj rest ih =>
    intro j c k hk hik
    rw [mkRow]
    cases k with
    | zero =>
      rw [if_pos (by omega)]
      simp
    | succ k' =>
      have hij : i ≠ j := by omega
      rw [if_neg hij]
      simp only [List.getD_cons_succ]
      exact ih (j + 1) (c + 1) k' (by simpa using hk) (by omega)

theorem mkRow_off (band : α → α → ℚ → ℚ) (u : Nat → ℚ) (ti : α) (i : Nat) :
    ∀ (l : List α) (j c k : Nat), k < l.length → i ≠ j + k →
      ∃ c', (mkRow band u ti i l j c).1.getD k 0 =
        band ti (l.getD k default) (u c') := by
  intro l
  induction l with
  | nil => intro j c k hk; simp at hk
  | cons tj rest ih =>
    intro j c k hk hik
    rw [mkRow]
    cases k with
    | zero =>
      rw [if_neg (by omega)]
      exact ⟨c, by simp⟩
    | succ k' =>
      by_cases hij : i = j
      · rw [if_pos hij]
        simp only [List.getD_cons_succ]
        exact ih (j + 1) c k' (by simpa using hk) (by omega)
      · rw [if_neg hij]
        simp only [List.getD_cons_succ]
        exact ih (j + 1) (c + 1) k' (by simpa using hk) (by omega)

theorem mkRows_getD (band : α → α → ℚ → ℚ) (u : Nat → ℚ) (vms : List α) :
    ∀ (rows : List α) (i0 c i : Nat), i < rows.length →
      ∃ c', (mkRows band u vms rows i0 c).getD i [] =
        (mkRow band u (rows.getD i default) (i0 + i) vms 0 c').1 := by
  intro rows
  induction rows with
  | nil => intro i0 c i hi; simp at hi
  | cons ti rest ih =>
    intro i0 c i hi
    cases i with
    | zero => exact ⟨c, by simp [mkRows]⟩
    | succ i' =>
      obtain ⟨c', hc'⟩ := ih (i0 + 1) (mkRow band u ti i0 vms 0 c).2 i' (by simpa using hi)
      refine ⟨c', ?_⟩
      simp only [mkRows, List.getD_cons_succ]
      rw [hc']
      congr 2
      omega

/-- The produced matrix is square. -/
theorem mkMatrix_dims (band : α → α → ℚ → ℚ) (u : Nat → ℚ) (vms : List α) :
    (mkMatrix band u vms).length = vms.length ∧
      ∀ i, i < vms.length → ((mkMatrix band u vms).getD i []).length = vms.length := by
  constructor
  · exact mkRows_length band u vms vms 0 0
  · intro i hi
    obtain ⟨c', hc'⟩ := mkRows_getD band u vms vms 0 0 i hi
    simp only [mkMatrix]
    rw [hc', mkRow_length]

/-- Every diagonal entry of the produced matrix is exactly 0. -/
theorem mkMatrix_diag (band : α → α → ℚ → ℚ) (u : Nat → ℚ) (vms : List α) :
    ∀ i, i < vms.length → ((mkMatrix band u vms).getD i []).getD i 0 = 0 := by
  intro i hi
  obtain ⟨c', hc'⟩ := mkRows_getD band u vms vms 0 0 i hi
  simp only [mkMatrix]
  rw [hc']
  exact mkRow_diag band u _ _ vms 0 c' i hi (by omega)

/-- Every off-diagonal entry is some draw of the tier function `band`. -/
theorem mkMatrix_off (band : α → α → ℚ → ℚ) (u : Nat → ℚ) (vms : List α) :
    ∀ i j, i < vms.length → j < vms.length → i ≠ j →
      ∃ c, ((mkMatrix band u vms).getD i []).getD j 0 =
        band (vms.getD i default) (vms.getD j default) (u c) := by
  intro i j hi hj hij
  obtain ⟨c', hc'⟩ := mkRows_getD band u vms vms 0 0 i hi
  simp only [mkMatrix]
  rw [hc']
  exact mkRow_off band u _ _ vms 0 c' j hj (by omega)

end Matrixes

namespace Ligo

theorem ligoBand_pos (t1 t2 : String) (x : ℚ) (hx : 0 ≤ x) : 0 < ligoBand t1 t2 x := by
  rw [ligoBand]
  split_ifs <;> simp only [uniformDraw] <;> nlinarith [hx]

end Ligo

namespace Epigenomics

theorem epigBand_pos (t1 t2 : String) (x : ℚ) (hx : 0 ≤ x) : 0 < epigBand t1 t2 x := by
  rw [epigBand]
  split_ifs <;> simp only [uniformDraw] <;> nlinarith [hx]

end Epigenomics

namespace Pegasus

theorem pegRow_diag (u : Nat → ℚ) (i : Nat) :
    ∀ (js : List Nat) (c : Nat), ∀ e ∈ (pegRow u i js c).1,
      e.1 = e.2.1 → e.2.2 = Bw.inf := by
  intro js
  induction js with
  | nil => intro c e he; simp [pegRow] at he
  | cons j rest ih =>
    intro c e he heq
    rw [pegRow] at he
    by_cases hij : i ≠ j
    · rw [if_pos hij] at he
      rcases List.mem_cons.mp he with rfl | he
      · exact absurd heq hij
      · exact ih _ e he heq
    · rw [if_neg hij] at he
      rcases List.mem_cons.mp he with rfl | he
      · rfl
      · exact ih _ e he heq

/-- Every same-VM entry in the pegasus bandwidth list carries `inf`,
never 0. -/
theorem pegasusBandwidth_diag (N : Nat) (u : Nat → ℚ) :
    ∀ e ∈ pegasusBandwidth N u, e.1 = e.2.1 → e.2.2 = Bw.inf := by
  rw [pegasusBandwidth]
  generalize (0 : Nat) = c0
  generalize hrows : List.range N = rows
  clear hrows
  induction rows generalizing c0 with
  | nil => intro e he; simp [pegRows] at he
  | cons i rest ih =>
    intro e he heq
    rw [pegRows] at he
    rcases List.mem_append.mp he with he | he
    · exact pegRow_diag u i _ _ e he heq
    · exact ih _ e he heq

end Pegasus

namespace Synthetic

theorem generate_cybershake_nodes_length (num_tasks : Nat) :
    (generate_cybershake_nodes num_tasks).length = 5 * (num_tasks / 5) := by
  rw [generate_cybershake_nodes]
  generalize num_tasks / 5 = rows
  induction rows with
  | zero => simp
  | succ k ih =>
    rw [List.range_succ, List.flatMap_append, List.length_append]
    rw [List.flatMap_singleton]
    simp only [List.length_cons, List.length_nil]
    omega

end Synthetic

namespace Ligo

theorem ligo_length (s T : Nat) : (create_ligo_workflow s T).length = ligoN s T := by
  have h := congrArg List.length (ligo_ids s T)
  simpa using h

end Ligo

namespace Epigenomics

theorem epig_length (n a : Nat) :
    (create_epigenomics_workflow n a).length = epigN n a := by
  have h := congrArg List.length (epig_ids n a)
  simpa using h

end Epigenomics

/-- C1: Montage with `k ∈ [1,200]` images yields exactly `5k + 2` tasks,
and CyberShake with `s ∈ [1,100]` sites, `v ∈ [1,10]` SGT variations,
`p ∈ [1,10]` PSA filters yields exactly `1 + s·(1+v+p) + s + 1` tasks. -/
theorem claim_C1 (k s v p : Nat)
    (hk1 : 1 ≤ k) (hk2 : k ≤ 200)
    (hs1 : 1 ≤ s) (hs2 : s ≤ 100) (hv1 : 1 ≤ v) (hv2 : v ≤ 10)
    (hp1 : 1 ≤ p) (hp2 : p ≤ 10) :
    (Montage.create_montage_workflow k).length = 5 * k + 2 ∧
    (CyberShake.create_cybershake_workflow s v p).length = 1 + s * (1 + v + p) + s + 1 :=
  ⟨Montage.create_montage_workflow_length k,
   CyberShake.create_cybershake_workflow_length s v p⟩

theorem claim_C1_witness :
    ((1 ≤ 3 ∧ 3 ≤ 200) ∧ (1 ≤ 2 ∧ 2 ≤ 100) ∧ (1 ≤ 2 ∧ 2 ≤ 10) ∧ (1 ≤ 3 ∧ 3 ≤ 10)) ∧
    (Montage.create_montage_workflow 3).length = 5 * 3 + 2 ∧
    (CyberShake.create_cybershake_workflow 2 2 3).length = 1 + 2 * (1 + 2 + 3) + 2 + 1 :=
  ⟨by decide,
   claim_C1 3 2 2 3 (by decide) (by decide) (by decide) (by decide) (by decide)
     (by decide) (by decide) (by decide)⟩

/-- C2: for each archetype builder run with valid parameters, the task ids
form exactly the contiguous range `[1..N]` in creation order (`N` = the
builder's task count) and every dependency id is strictly below its
task's own id, so creation order is a topological order and the graph is
acyclic. -/
theorem claim_C2 (k s v p sl tl n a : Nat)
    (hk1 : 1 ≤ k) (hk2 : k ≤ 200)
    (hs1 : 1 ≤ s) (hs2 : s ≤ 100) (hv1 : 1 ≤ v) (hv2 : v ≤ 10)
    (hp1 : 1 ≤ p) (hp2 : p ≤ 10)
    (hsl1 : 1 ≤ sl) (hsl2 : sl ≤ 1000) (htl1 : 1 ≤ tl) (htl2 : tl ≤ 50)
    (hn1 : 1 ≤ n) (hn2 : n ≤ 100) (ha1 : 1 ≤ a) (ha2 : a ≤ 5) :
    (idsContigDepsBelow (Montage.create_montage_workflow k) 1
      (Montage.create_montage_workflow k).length) ∧
    (idsContigDepsBelow (CyberShake.create_cybershake_workflow s v p) 1
      (CyberShake.create_cybershake_workflow s v p).length) ∧
    (idsContigDepsBelow (Ligo.create_ligo_workflow sl tl) 1
      (Ligo.create_ligo_workflow sl tl).length) ∧
    (idsContigDepsBelow (Epigenomics.create_epigenomics_workflow n a) 1
      (Epigenomics.create_epigenomics_workflow n a).length) := by
  refine ⟨?_, ?_, ?_, ?_⟩
  · rw [Montage.create_montage_workflow_length]
    exact Montage.montage_invariant k
  · rw [CyberShake.create_cybershake_workflow_length]
    rw [show 1 + s * (1 + v + p) + s + 1 = 1 + (2 + v + p) * s + 1 by ring]
    exact CyberShake.cybershake_invariant s v p
  · rw [Ligo.ligo_length]
    exact Ligo.ligo_invariant sl tl
  · rw [Epigenomics.epig_length]
    exact Epigenomics.epig_invariant n a

theorem claim_C2_witness :
    ((1 ≤ 1 ∧ 1 ≤ 200) ∧ (1 ≤ 1 ∧ 1 ≤ 100) ∧ (1 ≤ 1 ∧ 1 ≤ 10) ∧ (1 ≤ 1 ∧ 1 ≤ 10) ∧
     (1 ≤ 1 ∧ 1 ≤ 1000) ∧ (1 ≤ 1 ∧ 1 ≤ 50) ∧ (1 ≤ 1 ∧ 1 ≤ 100) ∧ (1 ≤ 1 ∧ 1 ≤ 5)) ∧
    (idsContigDepsBelow (Montage.create_montage_workflow 1) 1
      (Montage.create_montage_workflow 1).length ∧
     idsContigDepsBelow (CyberShake.create_cybershake_workflow 1 1 1) 1
      (CyberShake.create_cybershake_workflow 1 1 1).length ∧
     idsContigDepsBelow (Ligo.create_ligo_workflow 1 1) 1
      (Ligo.create_ligo_workflow 1 1).length ∧
     idsContigDepsBelow (Epigenomics.create_epigenomics_workflow 1 1) 1
      (Epigenomics.create_epigenomics_workflow 1 1).length) :=
  ⟨by decide,
   claim_C2 1 1 1 1 1 1 1 1 (by decide) (by decide) (by decide) (by decide) (by decide)
     (by decide) (by decide) (by decide) (by decide) (by decide) (by decide) (by decide)
     (by decide) (by decide) (by decide) (by decide)⟩

/-- C3 counterexample: two runs of `create_montage_workflow_ccr` with the
same `(scale, num_vms)` but different ambient draws of the process-wide
`random` source (which is never seeded) write different
processing_capacity.csv/task.csv contents, refuting byte-identical
reproducibility from `(archetype, parameters, seed)` alone. -/
theorem claim_C3_counterexample :
    validStream (fun _ => 0) ∧ validStream (fun _ => 1) ∧
    Montage.montage_ccr_outputs "small" 10 (fun _ => 0) ≠
      Montage.montage_ccr_outputs "small" 10 (fun _ => 1) := by
  refine ⟨fun i => by norm_num, fun i => by norm_num, ?_⟩
  intro h
  have e0 : (Montage.montage_ccr_outputs "small" 10 (fun _ => 0)).map
      (fun pr => (pr.1.getD 0 (0, 0)).2) = some (uniformDraw 10 20 0) := rfl
  have e1 : (Montage.montage_ccr_outputs "small" 10 (fun _ => 1)).map
      (fun pr => (pr.1.getD 0 (0, 0)).2) = some (uniformDraw 10 20 1) := rfl
  have h2 : some (uniformDraw 10 20 (0 : ℚ)) = some (uniformDraw 10 20 (1 : ℚ)) := by
    rw [← e0, ← e1, h]
  have h3 : uniformDraw 10 20 (0 : ℚ) = uniformDraw 10 20 1 :=
    Option.some.inj h2
  rw [uniformDraw, uniformDraw] at h3
  norm_num at h3

/-- C3 (amended): the CCR-mode outputs are a function of the parameters
and the ambient draw stream only — all randomness flows through the
module-level `random` source, which carries no per-run seed, so fixing
`(archetype, parameters, seed)` without fixing that hidden stream does
not determine the output. -/
theorem claim_C3 (scale : String) (num_vms : Nat) (u1 u2 : Nat → ℚ)
    (h : ∀ i, u1 i = u2 i) :
    Montage.montage_ccr_outputs scale num_vms u1 =
      Montage.montage_ccr_outputs scale num_vms u2 := by
  have hu : u1 = u2 := funext h
  rw [hu]

theorem claim_C3_witness :
    (∀ i : Nat, (fun _ : Nat => (0 : ℚ)) i = (fun _ : Nat => (0 : ℚ)) i) ∧
    Montage.montage_ccr_outputs "small" 10 (fun _ => 0) =
      Montage.montage_ccr_outputs "small" 10 (fun _ => 0) :=
  ⟨fun _ => rfl, claim_C3 "small" 10 _ _ (fun _ => rfl)⟩

/-- C4 counterexample: on the unbranched chain of 3 tasks the validator's
`critical_path_length` is 3 (the task count), not `3 - 1 = 2` (the edge
count) as the claim states. -/
theorem claim_C4_counterexample :
    Validator.criticalPathLength (Validator.chainGraph 3) 3 = some 3 ∧
      (3 : Nat) ≠ 3 - 1 := by
  exact ⟨by decide, by decide⟩

/-- C4 (amended): on an unbranched chain of `n ≥ 1` tasks the validator's
`critical_path_length` equals `n`, the number of tasks on the longest
root-to-leaf path (its BFS starts each root at `path_len = 1` and reports
the value at the leaf), not the edge count `n - 1`. Fuel `n` suffices for
the BFS to drain its queue. -/
theorem claim_C4 (n : Nat) (h : 1 ≤ n) :
    Validator.criticalPathLength (Validator.chainGraph n) n = some n :=
  Validator.chain_criticalPathLength n h

theorem claim_C4_witness :
    1 ≤ 4 ∧ Validator.criticalPathLength (Validator.chainGraph 4) 4 = some 4 :=
  ⟨by decide, claim_C4 4 (by decide)⟩

/-- C5 counterexample: with 11 segments (templates = 10) the LIGO builder
creates `max(1, 11 // 10) = 1` Injection task, not
`max(⌈11/10⌉, 1) = 2` as the claim's ceiling formula states. -/
theorem claim_C5_counterexample :
    ((Ligo.create_ligo_workflow 11 10).filter fun t => t.taskType == "Injection").length = 1 ∧
      (1 : Nat) ≠ max ((11 + 9) / 10) 1 := by
  refine ⟨?_, by decide⟩
  rw [Ligo.ligo_filter_injection, Ligo.injectionTasks_length]
  decide

/-- C5 (amended): for every valid `s` segments and `T` templates the LIGO
builder creates exactly `max(1, s // 10)` (floor, not ceiling) Injection
tasks, and each Injection task's dependency list is exactly the singleton
containing the TemplateBank task id. -/
theorem claim_C5 (s T : Nat) (hs1 : 1 ≤ s) (hs2 : s ≤ 1000)
    (ht1 : 1 ≤ T) (ht2 : T ≤ 50) :
    ((Ligo.create_ligo_workflow s T).filter fun t => t.taskType == "Injection").length
      = max 1 (s / 10) ∧
    ∀ t ∈ (Ligo.create_ligo_workflow s T).filter fun t => t.taskType == "Injection",
      t.deps = [Ligo.templatebankId s] := by
  constructor
  · rw [Ligo.ligo_filter_injection, Ligo.injectionTasks_length]
    rfl
  · rw [Ligo.ligo_filter_injection]
    exact Ligo.injectionTasks_deps s T

theorem claim_C5_witness :
    ((1 ≤ 25 ∧ 25 ≤ 1000) ∧ (1 ≤ 10 ∧ 10 ≤ 50)) ∧
    (((Ligo.create_ligo_workflow 25 10).filter
        fun t => t.taskType == "Injection").length = max 1 (25 / 10) ∧
      ∀ t ∈ (Ligo.create_ligo_workflow 25 10).filter fun t => t.taskType == "Injection",
        t.deps = [Ligo.templatebankId 25]) :=
  ⟨by decide, claim_C5 25 10 (by decide) (by decide) (by decide) (by decide)⟩

/-- C6 counterexample: the LIGO resource builder draws `M[0][1]` and
`M[1][0]` independently from the module-level random source, so a run
whose first draw is the low end and whose 35th draw is the high end of
the 200-600 range produces `M[0][1] = 200 ≠ 600 = M[1][0]`: the matrix is
not exactly symmetric. -/
theorem claim_C6_counterexample :
    validStream (fun c => if c = 0 then (0 : ℚ) else 1) ∧
    ((Ligo.ligoVmMatrix Ligo.ligoVmTypes (fun c => if c = 0 then (0 : ℚ) else 1)).getD
        0 []).getD 1 0 ≠
      ((Ligo.ligoVmMatrix Ligo.ligoVmTypes (fun c => if c = 0 then (0 : ℚ) else 1)).getD
        1 []).getD 0 0 := by
  constructor
  · intro i
    dsimp only
    split <;> norm_num
  · have e01 : ((Ligo.ligoVmMatrix Ligo.ligoVmTypes
        (fun c => if c = 0 then (0 : ℚ) else 1)).getD 0 []).getD 1 0 =
        uniformDraw 200 600 0 := rfl
    have e10 : ((Ligo.ligoVmMatrix Ligo.ligoVmTypes
        (fun c => if c = 0 then (0 : ℚ) else 1)).getD 1 []).getD 0 0 =
        uniformDraw 200 600 1 := rfl
    rw [e01, e10, uniformDraw, uniformDraw]
    norm_num

/-- C6 (amended): for every VM pool and valid draw stream, the LIGO and
Epigenomics resource builders produce a square N×N matrix with zero
diagonal and strictly positive off-diagonal entries; but `M[i][j]` and
`M[j][i]` are independent draws, so exact symmetry does not hold. -/
theorem claim_C6 (vmsL vmsE : List String) (u : Nat → ℚ) (hu : validStream u) :
    ((Ligo.ligoVmMatrix vmsL u).length = vmsL.length ∧
     (∀ i, i < vmsL.length →
       ((Ligo.ligoVmMatrix vmsL u).getD i []).length = vmsL.length) ∧
     (∀ i, i < vmsL.length → ((Ligo.ligoVmMatrix vmsL u).getD i []).getD i 0 = 0) ∧
     (∀ i j, i < vmsL.length → j < vmsL.length → i ≠ j →
       0 < ((Ligo.ligoVmMatrix vmsL u).getD i []).getD j 0)) ∧
    ((Epigenomics.epigVmMatrix vmsE u).length = vmsE.length ∧
     (∀ i, i < vmsE.length →
       ((Epigenomics.epigVmMatrix vmsE u).getD i []).length = vmsE.length) ∧
     (∀ i, i < vmsE.length →
       ((Epigenomics.epigVmMatrix vmsE u).getD i []).getD i 0 = 0) ∧
     (∀ i j, i < vmsE.length → j < vmsE.length → i ≠ j →
       0 < ((Epigenomics.epigVmMatrix vmsE u).getD i []).getD j 0)) := by
  constructor
  · refine ⟨(Matrixes.mkMatrix_dims _ _ _).1, (Matrixes.mkMatrix_dims _ _ _).2,
      Matrixes.mkMatrix_diag _ _ _, ?_⟩
    intro i j hi hj hij
    obtain ⟨c, hc⟩ := Matrixes.mkMatrix_off Ligo.ligoBand u vmsL i j hi hj hij
    show 0 < ((Matrixes.mkMatrix Ligo.ligoBand u vmsL).getD i []).getD j 0
    rw [hc]
    exact Ligo.ligoBand_pos _ _ _ (hu c).1
  · refine ⟨(Matrixes.mkMatrix_dims _ _ _).1, (Matrixes.mkMatrix_dims _ _ _).2,
      Matrixes.mkMatrix_diag _ _ _, ?_⟩
    intro i j hi hj hij
    obtain ⟨c, hc⟩ := Matrixes.mkMatrix_off Epigenomics.epigBand u vmsE i j hi hj hij
    show 0 < ((Matrixes.mkMatrix Epigenomics.epigBand u vmsE).getD i []).getD j 0
    rw [hc]
    exact Epigenomics.epigBand_pos _ _ _ (hu c).1

theorem claim_C6_witness :
    validStream (fun _ => (1 : ℚ) / 2) ∧
    ((Ligo.ligoVmMatrix Ligo.ligoVmTypes (fun _ => (1 : ℚ) / 2)).getD 0 []).getD 0 0 = 0 ∧
    0 < ((Epigenomics.epigVmMatrix Epigenomics.epigVmTypes
        (fun _ => (1 : ℚ) / 2)).getD 0 []).getD 1 0 := by
  have hu : validStream (fun _ => (1 : ℚ) / 2) := fun i => by norm_num
  refine ⟨hu, ?_, ?_⟩
  · exact (claim_C6 Ligo.ligoVmTypes Epigenomics.epigVmTypes _ hu).1.2.2.1 0 (by decide)
  · exact (claim_C6 Ligo.ligoVmTypes Epigenomics.epigVmTypes _ hu).2.2.2.2 0 1
      (by decide) (by decide) (by decide)

/-- C7 counterexample: in `workflow_to_csv` the same-VM bandwidth entry is
`float('inf')`, not 0: the entry for `(vm 0, vm 0)` in a 2-VM build
carries `inf`. -/
theorem claim_C7_counterexample :
    (0, 0, Pegasus.Bw.inf) ∈ Pegasus.pegasusBandwidth 2 (fun _ => (1 : ℚ) / 2) ∧
    Pegasus.Bw.inf ≠ Pegasus.Bw.fin 0 := by
  constructor
  · have e : Pegasus.pegasusBandwidth 2 (fun _ => (1 : ℚ) / 2) =
        [(0, 0, Pegasus.Bw.inf),
         (0, 1, Pegasus.Bw.fin (uniformDraw 20 30 ((1 : ℚ) / 2))),
         (1, 0, Pegasus.Bw.fin (uniformDraw 20 30 ((1 : ℚ) / 2))),
         (1, 1, Pegasus.Bw.inf)] := rfl
    rw [e]
    exact List.mem_cons_self _ _
  · intro h
    cases h

/-- C7 (amended): the CyberShake resource builder (creareDAG.py) forces
every diagonal entry of its bandwidth matrix to exactly 0, for every
build size and draw stream; the pegasus `workflow_to_csv` builder instead
sets every same-VM bandwidth entry to `float('inf')`. -/
theorem claim_C7 (total_jobs : Nat) (u v : Nat → ℚ) (N : Nat) :
    (∀ i, i < (CyberShake.dagVmCpus total_jobs).length →
      ((CyberShake.dagVmMatrix total_jobs u).getD i []).getD i 0 = 0) ∧
    (∀ e ∈ Pegasus.pegasusBandwidth N v, e.1 = e.2.1 → e.2.2 = Pegasus.Bw.inf) :=
  ⟨fun i hi => Matrixes.mkMatrix_diag CyberShake.dagBand u (CyberShake.dagVmCpus total_jobs) i hi,
   Pegasus.pegasusBandwidth_diag N v⟩

theorem claim_C7_witness :
    ((CyberShake.dagVmMatrix 30 (fun _ => (1 : ℚ) / 2)).getD 0 []).getD 0 0 = 0 ∧
    (1, 1, Pegasus.Bw.inf).2.2 = Pegasus.Bw.inf := by
  constructor
  · exact (claim_C7 30 (fun _ => (1 : ℚ) / 2) (fun _ => (1 : ℚ) / 2) 2).1 0 (by decide)
  · refine (claim_C7 30 (fun _ => (1 : ℚ) / 2) (fun _ => (1 : ℚ) / 2) 2).2
      (1, 1, Pegasus.Bw.inf) ?_ rfl
    have e : Pegasus.pegasusBandwidth 2 (fun _ => (1 : ℚ) / 2) =
        [(0, 0, Pegasus.Bw.inf),
         (0, 1, Pegasus.Bw.fin (uniformDraw 20 30 ((1 : ℚ) / 2))),
         (1, 0, Pegasus.Bw.fin (uniformDraw 20 30 ((1 : ℚ) / 2))),
         (1, 1, Pegasus.Bw.inf)] := rfl
    rw [e]
    exact List.mem_cons_of_mem _ (List.mem_cons_of_mem _
      (List.mem_cons_of_mem _ (List.mem_cons_self _ _)))

/-- C8: for every loaded DAG whose edges go from lower to higher ids with
sources among the tasks (the generator invariant), when the level BFS of
`analyze_dag_structure` drains its queue it assigns level 0 to every root
and, to every task with a predecessor, exactly 1 plus the maximum level
among its predecessors — so on the diamond A→B→D, A→C→D the convergence
task D gets level 2, never 1. -/
theorem claim_C8 (g : Validator.Graph) (fuel : Nat) (m : List (Nat × Nat))
    (hrun : Validator.computeLevels g fuel = some m)
    (hmono : ∀ e ∈ g.edges, e.1 < e.2)
    (hclosed : ∀ e ∈ g.edges, e.1 ∈ g.tasks) :
    (∀ r, r ∈ g.tasks → Validator.inDeg g r = 0 → Validator.dmLookup m r = some 0) ∧
    (∀ v, 0 < Validator.inDeg g v →
      Validator.dmLookup m v =
        some (((Validator.predsOf g v).map
          fun p => (Validator.dmLookup m p).getD 0).foldr max 0 + 1)) :=
  ⟨Validator.computeLevels_root g fuel m hrun,
   Validator.computeLevels_nonroot g fuel m hrun hmono hclosed⟩

theorem claim_C8_witness :
    (Validator.computeLevels Validator.diamondGraph 10 =
        some [(1, 0), (2, 1), (3, 1), (4, 2)] ∧
      (∀ e ∈ Validator.diamondGraph.edges, e.1 < e.2) ∧
      (∀ e ∈ Validator.diamondGraph.edges, e.1 ∈ Validator.diamondGraph.tasks)) ∧
    Validator.dmLookup [(1, 0), (2, 1), (3, 1), (4, 2)] 1 = some 0 ∧
    Validator.dmLookup [(1, 0), (2, 1), (3, 1), (4, 2)] 4 = some 2 := by
  refine ⟨⟨by decide, by decide, by decide⟩, ?_, ?_⟩
  · exact (claim_C8 Validator.diamondGraph 10 [(1, 0), (2, 1), (3, 1), (4, 2)]
      (by decide) (by decide) (by decide)).1 1 (by decide) (by decide)
  · have h := (claim_C8 Validator.diamondGraph 10 [(1, 0), (2, 1), (3, 1), (4, 2)]
      (by decide) (by decide) (by decide)).2 4 (by decide)
    have e : (((Validator.predsOf Validator.diamondGraph 4).map
        fun p => (Validator.dmLookup [(1, 0), (2, 1), (3, 1), (4, 2)] p).getD 0).foldr
          max 0 + 1) = 2 := by decide
    rw [e] at h
    exact h

/-- C9: with `--images 0` (outside the accepted range [1,200]) the Montage
`main` does NOT fail: Python's `if args.images:` treats 0 as falsy, so the
validation block is skipped and the default CCR workflow (scale medium,
252 tasks) is generated and its CSV files written. For every other
out-of-range value the validation exits before construction. -/
theorem claim_C9_bug :
    ((0 : Int) < 1 ∨ (0 : Int) > 200) ∧
    Montage.montageMain (some 0) (1 / 2) = Montage.MainResult.ccrDefault 252 := by
  constructor
  · left
    decide
  · rfl

/-- C10: `generate_cybershake num_tasks` produces exactly
`5 * (num_tasks // 5)` tasks: a request that is not a multiple of 5 is
silently rounded down, so `num_tasks ∈ [1..4]` yields an empty workflow. -/
theorem claim_C10 (num_tasks : Nat) (h : 0 < num_tasks) :
    (Synthetic.generate_cybershake_nodes num_tasks).length = 5 * (num_tasks / 5) ∧
    (num_tasks ≤ 4 → Synthetic.generate_cybershake_nodes num_tasks = []) := by
  refine ⟨Synthetic.generate_cybershake_nodes_length num_tasks, ?_⟩
  intro h4
  rw [Synthetic.generate_cybershake_nodes]
  have h5 : num_tasks / 5 = 0 := by omega
  rw [h5]
  simp

theorem claim_C10_witness :
    (0 < 7 ∧ (Synthetic.generate_cybershake_nodes 7).length = 5 * (7 / 5)) ∧
    (0 < 3 ∧ Synthetic.generate_cybershake_nodes 3 = []) :=
  ⟨⟨by decide, (claim_C10 7 (by decide)).1⟩,
   ⟨by decide, (claim_C10 3 (by decide)).2 (by decide)⟩⟩

